import Mathlib

/-!
Verification of flink-deployer, `cmd/cli/updatejob.go`.

A shallow embedding of the update workflow (`RetrieveLatestSavepoint`,
`ExtractSavepointPath`, `CreateSavepoint`, `UpdateJob.execute`) and theorems about it.

Go strings are Lean `String`s (valid UTF-8 text); a Go `error` is its message.
The functions that `updatejob.go` calls but does not define (the afero filesystem,
`Savepoint`, `RetrieveRunningJobIds`, `CancelJob`, `Deploy.execute`) are the fields of
`Env`: for one run, `Env` fixes the answer each of them gives to each argument.
Every function that talks to a collaborator returns, next to its Go result, the list
of collaborator calls it made, in order. `log.Printf` lines are not modelled.
-/

namespace FlinkDeployer

/-! ## Data model -/

/-- A Go `error` value, identified by the text of its `Error()` method. -/
structure GoError where
  msg : String
  deriving DecidableEq, Repr

/-- Go `errors.New`. -/
def errorsNew (msg : String) : GoError := ⟨msg⟩

/-- The part of `os.FileInfo` that the code reads: `Name()` and `ModTime().Unix()`
(an `int64`; it is only compared, never computed with). -/
structure FileInfo where
  name : String
  modTime : Int
  deriving DecidableEq, Repr

/-- The `Deploy` command that `execute` fills in (declared elsewhere in the package;
these are the fields `updatejob.go` assigns). A field left out of the composite
literal has Go's zero value. -/
structure Deploy where
  runArgs : String := ""
  localFilename : String := ""
  remoteFilename : String := ""
  apiToken : String := ""
  jarArgs : String := ""
  savepointPath : String := ""
  allowNonRestorableState : Bool := false
  deriving DecidableEq, Repr

/-- The `UpdateJob` struct of `updatejob.go`. -/
structure UpdateJob where
  jobName : String
  runArgs : String
  localFilename : String
  remoteFilename : String
  apiToken : String
  jarArgs : String
  savepointDirectory : String
  allowNonRestorableState : Bool
  deriving DecidableEq, Repr

/-- The answers of the collaborators during one run.
* `readDir` is `afero.ReadDir(filesystem, dir)`;
* `stat` is `filesystem.Stat(path)`;
* `fsExists` is `afero.Exists(filesystem, path)` with its `(bool, error)` result;
* `savepoint` is `Savepoint(jobId)`, the raw output of the savepoint trigger;
* `retrieveRunningJobIds` is `RetrieveRunningJobIds(jobName)`;
* `cancelJob` is the outcome of `CancelJob(jobId)` (`none` is success);
* `deploy` is `Deploy.execute()` with its `([]byte, error)` result (`none` is `nil`). -/
structure Env where
  readDir : String → Except GoError (List FileInfo)
  stat : String → Except GoError FileInfo
  fsExists : String → Except GoError Bool
  savepoint : String → Except GoError String
  retrieveRunningJobIds : String → Except GoError (List String)
  cancelJob : String → Option GoError
  deploy : Deploy → Option String × Option GoError

/-- One collaborator call, with its argument. -/
inductive Call where
  | readDir (dir : String)
  | stat (path : String)
  | fsExists (path : String)
  | savepoint (jobId : String)
  | retrieveRunningJobIds (jobName : String)
  | cancelJob (jobId : String)
  | deploy (d : Deploy)
  deriving DecidableEq, Repr

/-! ## `RetrieveLatestSavepoint` -/

/-- Go `strings.HasSuffix(s, "/")`. -/
def hasSlashSuffix (s : String) : Bool :=
  s.data.getLast? = some '/'

/-- Go `strings.TrimSuffix(s, "/")`: removes one trailing `/` when there is one. -/
def trimSlashSuffix (s : String) : String :=
  if hasSlashSuffix s then String.mk s.data.dropLast else s

/-- The `for _, f := range files` loop of `RetrieveLatestSavepoint`, with the loop
variables `newestFile` and `newestTime` as arguments. -/
def latestLoop (env : Env) (dir : String) :
    List FileInfo → String → Int → List Call × Except GoError String
  | [], newestFile, _ => ([], .ok newestFile)
  | f :: rest, newestFile, newestTime =>
    let filePath := dir ++ "/" ++ f.name
    match env.stat filePath with
    | .error err => ([Call.stat filePath], .error err)
    | .ok fi =>
      let currTime := fi.modTime
      let r :=
        if currTime > newestTime then latestLoop env dir rest filePath currTime
        else latestLoop env dir rest newestFile newestTime
      (Call.stat filePath :: r.1, r.2)

/-- Go `RetrieveLatestSavepoint(dir)`: the calls made and the result `(string, error)`. -/
def RetrieveLatestSavepoint (env : Env) (dir : String) : List Call × Except GoError String :=
  let dir := if hasSlashSuffix dir then trimSlashSuffix dir else dir
  match env.readDir dir with
  | .error err => ([Call.readDir dir], .error err)
  | .ok files =>
    let r := latestLoop env dir files "" 0
    (Call.readDir dir :: r.1, r.2)

/-! ## `ExtractSavepointPath`

The regular expression is `Savepoint completed. Path: file:(.*)\n`. In Go's `regexp`
an unescaped `.` matches any character except a line break, `(.*)` is greedy, and
`FindAllStringSubmatch(output, -1)` returns the successive non-overlapping matches,
each one the leftmost match starting at or after the end of the previous one. -/

/-- When `p` is a prefix of `s`, the rest of `s`. -/
def dropPrefix? : List Char → List Char → Option (List Char)
  | [], s => some s
  | _ :: _, [] => none
  | p :: ps, c :: cs => if p = c then dropPrefix? ps cs else none

/-- The literal text of the pattern before its `.`. -/
def rgxHead : List Char := "Savepoint completed".toList

/-- The literal text of the pattern between its `.` and its capture group. -/
def rgxMid : List Char := " Path: file:".toList

/-- A match of the pattern that starts at the first character of `s`: the captured
group and the text after the match. The `.` takes one character that is not a line
break; `(.*)` takes every character up to the next line break, which must be there. -/
def matchAt (s : List Char) : Option (List Char × List Char) :=
  match dropPrefix? rgxHead s with
  | none => none
  | some [] => none
  | some (c :: r1) =>
    if c = '\n' then none
    else
      match dropPrefix? rgxMid r1 with
      | none => none
      | some r2 =>
        match r2.dropWhile (fun x => x != '\n') with
        | [] => none
        | _ :: rest => some (r2.takeWhile (fun x => x != '\n'), rest)

/-- The captured groups of `FindAllStringSubmatch`, searching `s` from its start;
`fuel` bounds the number of search steps. -/
def findAllAux : Nat → List Char → List (List Char)
  | 0, _ => []
  | _ + 1, [] => []
  | fuel + 1, c :: cs =>
    match matchAt (c :: cs) with
    | some (cap, rest) => cap :: findAllAux fuel rest
    | none => findAllAux fuel cs

/-- The search with enough fuel: a search step consumes at least one character, so
`length` steps reach the end of the text (`findAllAux_fuel`, `findAll_cons`). -/
def findAll (s : List Char) : List (List Char) := findAllAux s.length s

/-- The captured groups `matches[i][1]` of `rgx.FindAllStringSubmatch(output, -1)`. -/
def findAllSubmatch (output : String) : List String :=
  (findAll output.data).map String.mk

/-- Go `ExtractSavepointPath(output)`. -/
def ExtractSavepointPath (output : String) : Except GoError String :=
  let matches_ := findAllSubmatch output
  match matches_ with
  | [] => .error (errorsNew "could not extract savepoint path from Flink's output")
  | [m] => .ok m
  | _ => .error (errorsNew "multiple matches for savepoint found")

/-! ## `CreateSavepoint` -/

/-- Go `CreateSavepoint(jobId)`. The boolean that `afero.Exists` returns is assigned to
the blank identifier; only its error is looked at. -/
def CreateSavepoint (env : Env) (jobId : String) : List Call × Except GoError String :=
  match env.savepoint jobId with
  | .error err => ([Call.savepoint jobId], .error err)
  | .ok out =>
    match ExtractSavepointPath out with
    | .error err => ([Call.savepoint jobId], .error err)
    | .ok savepoint =>
      match env.fsExists savepoint with
      | .error err => ([Call.savepoint jobId, Call.fsExists savepoint], .error err)
      | .ok _ => ([Call.savepoint jobId, Call.fsExists savepoint], .ok savepoint)

/-! ## `UpdateJob.execute` -/

/-- Go `fmt.Errorf("%v has %v instances running", jobName, n)`. -/
def instancesRunningError (jobName : String) (n : Nat) : GoError :=
  ⟨jobName ++ " has " ++ toString n ++ " instances running"⟩

/-- Go `UpdateJob.execute()`: the collaborator calls made, and the Go result
`([]byte, error)` (`none` is `nil`). Go's `len(s) == 0` holds of the empty string only,
as does `length = 0` here. -/
def UpdateJob.execute (env : Env) (u : UpdateJob) :
    List Call × (Option String × Option GoError) :=
  if u.jobName.length = 0 then
    ([], (none, some (errorsNew "unspecified argument 'jobName'")))
  else
    match env.retrieveRunningJobIds u.jobName with
    | .error err => ([Call.retrieveRunningJobIds u.jobName], (none, some err))
    | .ok jobIds =>
      let deploy : Deploy :=
        { runArgs := u.runArgs
          localFilename := u.localFilename
          remoteFilename := u.remoteFilename
          apiToken := u.apiToken
          jarArgs := u.jarArgs
          allowNonRestorableState := u.allowNonRestorableState }
      match jobIds with
      | [] =>
        if u.savepointDirectory.length = 0 then
          ([Call.retrieveRunningJobIds u.jobName],
            (none, some (errorsNew
              "cannot retrieve the latest savepoint without specifying the savepoint directory")))
        else
          match RetrieveLatestSavepoint env u.savepointDirectory with
          | (calls, .error err) =>
            (Call.retrieveRunningJobIds u.jobName :: calls, (none, some err))
          | (calls, .ok latestSavepoint) =>
            let deploy :=
              if latestSavepoint.length ≠ 0 then { deploy with savepointPath := latestSavepoint }
              else deploy
            (Call.retrieveRunningJobIds u.jobName :: calls ++ [Call.deploy deploy], env.deploy deploy)
      | [jobId] =>
        match CreateSavepoint env jobId with
        | (calls, .error err) =>
          (Call.retrieveRunningJobIds u.jobName :: calls, (none, some err))
        | (calls, .ok savepoint) =>
          let deploy := { deploy with savepointPath := savepoint }
          let _ := env.cancelJob jobId
          (Call.retrieveRunningJobIds u.jobName :: calls ++ [Call.cancelJob jobId, Call.deploy deploy],
            env.deploy deploy)
      | _ =>
        ([Call.retrieveRunningJobIds u.jobName],
          (none, some (instancesRunningError u.jobName jobIds.length)))

/-! ## The marker of the specification

The specification speaks of the literal marker `Savepoint completed. Path: file:<path>`
followed by a line break. These definitions follow its words, not the regular
expression. -/

/-- The marker of the specification, as literal text. -/
def marker : List Char := "Savepoint completed. Path: file:".toList

/-- An occurrence of the marker, a path and a line break that starts at the first
character of `s`: the path. -/
def markerHere (s : List Char) : Option (List Char) :=
  match dropPrefix? marker s with
  | none => none
  | some r => if '\n' ∈ r then some (r.takeWhile (fun x => x != '\n')) else none

/-- The paths of all occurrences of the marker followed by a path and a line break,
one for each place of the text where one starts. -/
def markerOccurrences : List Char → List (List Char)
  | [] => []
  | c :: cs =>
    match markerHere (c :: cs) with
    | some p => p :: markerOccurrences cs
    | none => markerOccurrences cs

/-- The lines of a text that end in a line break (without the line break); `cur` is
the current line so far, reversed. Text after the last line break is not a line. -/
def terminatedLinesAux : List Char → List Char → List (List Char)
  | _, [] => []
  | cur, c :: cs =>
    if c = '\n' then cur.reverse :: terminatedLinesAux [] cs
    else terminatedLinesAux (c :: cur) cs

/-- The lines of a text that end in a line break. -/
def terminatedLines (s : List Char) : List (List Char) := terminatedLinesAux [] s

/-- The text after the first occurrence of the marker in a line, when it has one. -/
def afterMarker? : List Char → Option (List Char)
  | [] => none
  | c :: cs =>
    match dropPrefix? marker (c :: cs) with
    | some r => some r
    | none => afterMarker? cs

/-- For every line that ends in a line break and contains the marker, the text
between the first marker of the line and the line break. -/
def markerLines (s : List Char) : List (List Char) :=
  (terminatedLines s).filterMap afterMarker?

/-- The pattern matches at the first character of `s` with its `.` on a character
other than a full stop. -/
def wildcardUsedAt (s : List Char) : Bool :=
  match dropPrefix? rgxHead s with
  | some (c :: r1) => c != '\n' && c != '.' && (dropPrefix? rgxMid r1).isSome
  | _ => false

/-- Nowhere in `s` does `Savepoint completed`, one character other than a full stop
or a line break, and ` Path: file:` occur. -/
def noWildcardUse : List Char → Bool
  | [] => true
  | c :: cs => !wildcardUsedAt (c :: cs) && noWildcardUse cs

/-! ## Vocabulary of the theorems -/

/-- The deployment request that carries the parameters of `u` and the savepoint path
`savepointPath` (the empty string is no savepoint path). -/
def deployOf (u : UpdateJob) (savepointPath : String) : Deploy :=
  { runArgs := u.runArgs
    localFilename := u.localFilename
    remoteFilename := u.remoteFilename
    apiToken := u.apiToken
    jarArgs := u.jarArgs
    savepointPath := savepointPath
    allowNonRestorableState := u.allowNonRestorableState }

/-- The metadata of every listed entry of `dir` can be read, and gives the entry's
modification time. -/
def StatAgrees (env : Env) (dir : String) (files : List FileInfo) : Prop :=
  ∀ g ∈ files, ∃ fi, env.stat (dir ++ "/" ++ g.name) = .ok fi ∧ fi.modTime = g.modTime

/-- In a trace of collaborator calls, every cancel request has the savepoint trigger
for the same instance id before it, and no savepoint trigger after it. -/
def SavepointBeforeCancel (t : List Call) : Prop :=
  ∀ pre post jobId, t = pre ++ Call.cancelJob jobId :: post →
    Call.savepoint jobId ∈ pre ∧ ∀ jobId2, Call.savepoint jobId2 ∉ post

/-! ## Environments used in examples -/

/-- An environment with one running instance `jid-7` of every job, whose savepoint
trigger reports `/sp/orders-1`, and a filesystem that says of every path that it does
not exist. -/
def envMissingPath : Env where
  readDir := fun _ => .ok []
  stat := fun _ => .error ⟨"file does not exist"⟩
  fsExists := fun _ => .ok false
  savepoint := fun _ => .ok "Triggering savepoint.\nSavepoint completed. Path: file:/sp/orders-1\nDone.\n"
  retrieveRunningJobIds := fun _ => .ok ["jid-7"]
  cancelJob := fun _ => none
  deploy := fun _ => (some "deployed", none)

/-- An environment with no running instance and a directory `/sp` whose only entry
`a` was last modified at the Unix epoch (second 0). -/
def envEpoch : Env where
  readDir := fun _ => .ok [⟨"a", 0⟩]
  stat := fun _ => .ok ⟨"a", 0⟩
  fsExists := fun _ => .ok true
  savepoint := fun _ => .error ⟨"no such job"⟩
  retrieveRunningJobIds := fun _ => .ok []
  cancelJob := fun _ => none
  deploy := fun _ => (some "deployed", none)

/-- An environment with no running instance and a directory `/sp` with the entries
`sp-1` (modified at second 1700000000) and `sp-2` (modified at second 1700000500). -/
def envTwoSavepoints : Env where
  readDir := fun _ => .ok [⟨"sp-1", 1700000000⟩, ⟨"sp-2", 1700000500⟩]
  stat := fun path =>
    if path = "/sp/sp-1" then .ok ⟨"sp-1", 1700000000⟩
    else if path = "/sp/sp-2" then .ok ⟨"sp-2", 1700000500⟩
    else .error ⟨"file does not exist"⟩
  fsExists := fun _ => .ok true
  savepoint := fun _ => .error ⟨"no such job"⟩
  retrieveRunningJobIds := fun _ => .ok []
  cancelJob := fun _ => none
  deploy := fun _ => (some "deployed", none)

/-- The scenario of the specification: one running instance `jid-7`, whose savepoint
trigger reports `/sp/orders-1`; the path exists and the cancel request succeeds. -/
def envOrders : Env where
  readDir := fun _ => .error ⟨"no such directory"⟩
  stat := fun _ => .error ⟨"file does not exist"⟩
  fsExists := fun _ => .ok true
  savepoint := fun _ => .ok "...\nSavepoint completed. Path: file:/sp/orders-1\n..."
  retrieveRunningJobIds := fun _ => .ok ["jid-7"]
  cancelJob := fun _ => none
  deploy := fun d => (some ("deployed from " ++ d.savepointPath), none)

/-- An environment with two running instances of every job. -/
def envTwoInstances : Env where
  readDir := fun _ => .error ⟨"no such directory"⟩
  stat := fun _ => .error ⟨"file does not exist"⟩
  fsExists := fun _ => .ok true
  savepoint := fun _ => .ok "Savepoint completed. Path: file:/sp/x\n"
  retrieveRunningJobIds := fun _ => .ok ["jid-1", "jid-2"]
  cancelJob := fun _ => none
  deploy := fun _ => (some "deployed", none)

/-- The update request of the scenario, with the savepoint directory `dir`. -/
def ordersJob (dir : String) : UpdateJob where
  jobName := "orders-job"
  runArgs := "-p 2"
  localFilename := "orders.jar"
  remoteFilename := ""
  apiToken := ""
  jarArgs := "--env prod"
  savepointDirectory := dir
  allowNonRestorableState := false

/-- An environment with no running instance and a directory `/sp` whose entries
`sp-1` and `sp-2`, listed in this order, were both modified at second 1700000000. -/
def envTie : Env where
  readDir := fun _ => .ok [⟨"sp-1", 1700000000⟩, ⟨"sp-2", 1700000000⟩]
  stat := fun path =>
    if path = "/sp/sp-1" then .ok ⟨"sp-1", 1700000000⟩
    else if path = "/sp/sp-2" then .ok ⟨"sp-2", 1700000000⟩
    else .error ⟨"file does not exist"⟩
  fsExists := fun _ => .ok true
  savepoint := fun _ => .error ⟨"no such job"⟩
  retrieveRunningJobIds := fun _ => .ok []
  cancelJob := fun _ => none
  deploy := fun _ => (some "deployed", none)

/-- An environment with no running instance and an empty directory `/sp`. -/
def envEmptyDir : Env where
  readDir := fun _ => .ok []
  stat := fun _ => .error ⟨"file does not exist"⟩
  fsExists := fun _ => .ok false
  savepoint := fun _ => .error ⟨"no such job"⟩
  retrieveRunningJobIds := fun _ => .ok []
  cancelJob := fun _ => none
  deploy := fun d => (some ("deployed from [" ++ d.savepointPath ++ "]"), none)

/-- An environment whose running-instance query fails. -/
def envQueryFails : Env where
  readDir := fun _ => .ok []
  stat := fun _ => .error ⟨"file does not exist"⟩
  fsExists := fun _ => .ok true
  savepoint := fun _ => .ok "Savepoint completed. Path: file:/sp/x\n"
  retrieveRunningJobIds := fun _ => .error ⟨"job manager not reachable"⟩
  cancelJob := fun _ => none
  deploy := fun _ => (some "deployed", none)

/-- An environment with one running instance `jid-7` whose savepoint trigger prints
no savepoint path. -/
def envNoMarker : Env where
  readDir := fun _ => .ok []
  stat := fun _ => .error ⟨"file does not exist"⟩
  fsExists := fun _ => .ok true
  savepoint := fun _ => .ok "Triggering savepoint for job jid-7.\nWaiting for response...\n"
  retrieveRunningJobIds := fun _ => .ok ["jid-7"]
  cancelJob := fun _ => none
  deploy := fun _ => (some "deployed", none)

/-- An environment with one running instance `jid-7` whose savepoint trigger fails. -/
def envTriggerFails : Env where
  readDir := fun _ => .ok []
  stat := fun _ => .error ⟨"file does not exist"⟩
  fsExists := fun _ => .ok true
  savepoint := fun _ => .error ⟨"savepoint trigger timed out"⟩
  retrieveRunningJobIds := fun _ => .ok ["jid-7"]
  cancelJob := fun _ => none
  deploy := fun _ => (some "deployed", none)

/-- An environment with one running instance `jid-7` whose savepoint trigger prints
two savepoint paths. -/
def envTwoMarkers : Env where
  readDir := fun _ => .ok []
  stat := fun _ => .error ⟨"file does not exist"⟩
  fsExists := fun _ => .ok true
  savepoint := fun _ =>
    .ok "Savepoint completed. Path: file:/sp/x\nSavepoint completed. Path: file:/sp/y\n"
  retrieveRunningJobIds := fun _ => .ok ["jid-7"]
  cancelJob := fun _ => none
  deploy := fun _ => (some "deployed", none)

/-- An environment with one running instance `jid-7` whose savepoint trigger reports
`/sp/orders-1`, and a filesystem whose existence check fails. -/
def envExistsFails : Env where
  readDir := fun _ => .ok []
  stat := fun _ => .error ⟨"permission denied"⟩
  fsExists := fun _ => .error ⟨"permission denied"⟩
  savepoint := fun _ => .ok "...\nSavepoint completed. Path: file:/sp/orders-1\n..."
  retrieveRunningJobIds := fun _ => .ok ["jid-7"]
  cancelJob := fun _ => none
  deploy := fun _ => (some "deployed", none)

/-! ## Theorems -/

/-! ### The regular expression search -/

theorem dropPrefix?_eq_some (p s r : List Char) :
    dropPrefix? p s = some r ↔ s = p ++ r := by
  induction p generalizing s with
  | nil => simp [dropPrefix?, eq_comm]
  | cons a p ih =>
    cases s with
    | nil => simp [dropPrefix?]
    | cons c cs =>
      by_cases hac : a = c
      · subst hac
        simp [dropPrefix?, ih]
      · have hca : ¬ c = a := fun h => hac h.symm
        simp [dropPrefix?, hac, hca]

theorem marker_eq : marker = rgxHead ++ '.' :: rgxMid := by decide

theorem newline_not_mem_marker : '\n' ∉ marker := by decide

theorem takeWhile_line (r rest : List Char) (h : '\n' ∉ r) :
    (r ++ '\n' :: rest).takeWhile (fun x => x != '\n') = r := by
  induction r with
  | nil => simp
  | cons a r ih =>
    have ha : a ≠ '\n' := fun e => h (by simp [e])
    have hr : '\n' ∉ r := fun e => h (by simp [e])
    have hb : (a != '\n') = true := by simp [ha]
    rw [List.cons_append, List.takeWhile_cons, hb]
    simp [ih hr]

theorem dropWhile_line (r rest : List Char) (h : '\n' ∉ r) :
    (r ++ '\n' :: rest).dropWhile (fun x => x != '\n') = '\n' :: rest := by
  induction r with
  | nil => simp
  | cons a r ih =>
    have ha : a ≠ '\n' := fun e => h (by simp [e])
    have hr : '\n' ∉ r := fun e => h (by simp [e])
    have hb : (a != '\n') = true := by simp [ha]
    rw [List.cons_append, List.dropWhile_cons, hb]
    simp [ih hr]

theorem length_dropWhile_le (q : Char → Bool) (r : List Char) :
    (r.dropWhile q).length ≤ r.length := by
  induction r with
  | nil => simp
  | cons a r ih =>
    rw [List.dropWhile_cons]
    split
    · simp only [List.length_cons]; omega
    · simp

/-- What a match at the first character looks like. -/
theorem matchAt_eq_some (s cap rest : List Char) (h : matchAt s = some (cap, rest)) :
    ∃ c r2, c ≠ '\n' ∧ s = rgxHead ++ c :: (rgxMid ++ r2) ∧
      r2.dropWhile (fun x => x != '\n') = '\n' :: rest ∧
      cap = r2.takeWhile (fun x => x != '\n') := by
  unfold matchAt at h
  split at h
  · exact absurd h (by simp)
  · exact absurd h (by simp)
  · rename_i c r1 h1
    split at h
    · exact absurd h (by simp)
    · rename_i hc
      split at h
      · exact absurd h (by simp)
      · rename_i r2 h2
        split at h
        · exact absurd h (by simp)
        · rename_i x rest1 h3
          simp only [Option.some.injEq, Prod.mk.injEq] at h
          obtain ⟨hcap, hrest⟩ := h
          subst hrest
          have hx : x = '\n' := by
            have := List.head_dropWhile_not (fun x => x != '\n') r2 (by simp [h3])
            simpa [h3] using this
          subst hx
          refine ⟨c, r2, hc, ?_, h3, hcap.symm⟩
          rw [(dropPrefix?_eq_some _ _ _).1 h1, (dropPrefix?_eq_some _ _ _).1 h2]

theorem matchAt_length (s cap rest : List Char) (h : matchAt s = some (cap, rest)) :
    rest.length < s.length := by
  obtain ⟨c, r2, -, hs, hd, -⟩ := matchAt_eq_some s cap rest h
  have hle := length_dropWhile_le (fun x => x != '\n') r2
  rw [hd] at hle
  rw [hs]
  simp only [List.length_append, List.length_cons] at hle ⊢
  omega

theorem newline_mem_of_matchAt (s cap rest : List Char) (h : matchAt s = some (cap, rest)) :
    '\n' ∈ s := by
  obtain ⟨c, r2, -, hs, hd, -⟩ := matchAt_eq_some s cap rest h
  have hmem : '\n' ∈ r2.dropWhile (fun x => x != '\n') := by rw [hd]; simp
  have hsub := (List.dropWhile_sublist (fun x => x != '\n') (l := r2)).subset hmem
  rw [hs]
  simp [hsub]

/-- A marker at the start of a line gives a match that captures the rest of the line. -/
theorem matchAt_of_marker (t r rest : List Char) (hr : '\n' ∉ r)
    (ht : dropPrefix? marker t = some r) :
    matchAt (t ++ '\n' :: rest) = some (r, rest) := by
  have e := (dropPrefix?_eq_some _ _ _).1 ht
  have h1 : dropPrefix? rgxHead (t ++ '\n' :: rest)
      = some ('.' :: (rgxMid ++ (r ++ '\n' :: rest))) := by
    rw [dropPrefix?_eq_some, e, marker_eq]; simp
  have h2 : dropPrefix? rgxMid (rgxMid ++ (r ++ '\n' :: rest)) = some (r ++ '\n' :: rest) := by
    rw [dropPrefix?_eq_some]
  unfold matchAt
  rw [h1]
  simp only [h2, dropWhile_line r rest hr, takeWhile_line r rest hr]
  simp

/-- Without a marker at the start of the line, and with the `.` of the pattern only
ever on a full stop, there is no match at the start of the line. -/
theorem matchAt_of_no_marker (t rest : List Char)
    (hm : dropPrefix? marker t = none)
    (hw : wildcardUsedAt (t ++ '\n' :: rest) = false) :
    matchAt (t ++ '\n' :: rest) = none := by
  cases hres : matchAt (t ++ '\n' :: rest) with
  | none => rfl
  | some pr =>
    exfalso
    obtain ⟨cap, rest1⟩ := pr
    obtain ⟨c, r2, hc, hs, -, -⟩ := matchAt_eq_some _ _ _ hres
    have h1 : dropPrefix? rgxHead (t ++ '\n' :: rest) = some (c :: (rgxMid ++ r2)) := by
      rw [dropPrefix?_eq_some]; exact hs
    have h2 : dropPrefix? rgxMid (rgxMid ++ r2) = some r2 := by
      rw [dropPrefix?_eq_some]
    have hdot : c = '.' := by
      unfold wildcardUsedAt at hw
      rw [h1] at hw
      simp only [h2, Option.isSome_some, Bool.and_true, Bool.and_eq_false_imp, bne_iff_ne,
        ne_eq, bne_eq_false_iff_eq] at hw
      exact hw hc
    subst hdot
    have hs2 : t ++ '\n' :: rest = marker ++ r2 := by
      rw [hs, marker_eq]; simp
    rcases List.append_eq_append_iff.1 hs2 with ⟨a, ha, hb⟩ | ⟨c, hc2, -⟩
    · cases a with
      | nil =>
        have : dropPrefix? marker t = some [] := by
          rw [dropPrefix?_eq_some]; simpa using ha.symm
        rw [hm] at this
        exact absurd this (by simp)
      | cons x a =>
        simp only [List.cons_append, List.cons.injEq] at hb
        have : '\n' ∈ marker := by rw [ha, ← hb.1]; simp
        exact newline_not_mem_marker this
    · have : dropPrefix? marker t = some c := by
        rw [dropPrefix?_eq_some]; exact hc2
      rw [hm] at this
      exact absurd this (by simp)

/-- More fuel than the length of the text changes nothing. -/
theorem findAllAux_fuel (n m : Nat) (s : List Char) (hn : s.length ≤ n) (hm : s.length ≤ m) :
    findAllAux n s = findAllAux m s := by
  induction n generalizing m s with
  | zero =>
    have : s = [] := List.eq_nil_of_length_eq_zero (by omega)
    subst this
    cases m <;> rfl
  | succ n ih =>
    cases s with
    | nil => cases m <;> rfl
    | cons c cs =>
      cases m with
      | zero => simp at hm
      | succ m =>
        simp only [List.length_cons] at hn hm
        unfold findAllAux
        cases hres : matchAt (c :: cs) with
        | none => exact ih m cs (by omega) (by omega)
        | some pr =>
          obtain ⟨cap, rest⟩ := pr
          have hl := matchAt_length _ _ _ hres
          simp only [List.length_cons] at hl
          simp only
          rw [ih m rest (by omega) (by omega)]

theorem findAll_nil : findAll [] = [] := rfl

/-- One search step: a match at the first character is recorded and the search goes
on after it; otherwise the search goes on at the next character. -/
theorem findAll_cons (c : Char) (cs : List Char) :
    findAll (c :: cs) =
      match matchAt (c :: cs) with
      | some (cap, rest) => cap :: findAll rest
      | none => findAll cs := by
  unfold findAll
  simp only [List.length_cons]
  rw [findAllAux]
  cases hres : matchAt (c :: cs) with
  | none => rfl
  | some pr =>
    obtain ⟨cap, rest⟩ := pr
    have hl := matchAt_length _ _ _ hres
    simp only [List.length_cons] at hl
    simp only
    rw [findAllAux_fuel cs.length rest.length rest (by omega) (le_refl _)]

theorem findAll_of_no_newline (s : List Char) (h : '\n' ∉ s) : findAll s = [] := by
  induction s with
  | nil => rfl
  | cons c cs ih =>
    rw [findAll_cons]
    cases hres : matchAt (c :: cs) with
    | none => exact ih (fun e => h (by simp [e]))
    | some pr => exact absurd (newline_mem_of_matchAt _ _ _ hres) h

theorem noWildcardUse_append_right (a b : List Char) (h : noWildcardUse (a ++ b) = true) :
    noWildcardUse b = true := by
  induction a with
  | nil => simpa using h
  | cons x a ih =>
    simp only [List.cons_append, noWildcardUse, Bool.and_eq_true] at h
    exact ih h.2

/-- The search over one line and what follows it: at most one match, at the first
marker of the line. -/
theorem findAll_line (t rest : List Char) (ht : '\n' ∉ t)
    (hw : noWildcardUse (t ++ '\n' :: rest) = true) :
    findAll (t ++ '\n' :: rest) = (afterMarker? t).toList ++ findAll rest := by
  induction t with
  | nil =>
    have hm : matchAt ('\n' :: rest) = none := by
      have := matchAt_of_no_marker [] rest (by decide)
        (by simp only [List.nil_append, noWildcardUse, Bool.and_eq_true,
              Bool.not_eq_true'] at hw
            exact hw.1)
      simpa using this
    rw [List.nil_append, findAll_cons, hm]
    simp [afterMarker?]
  | cons c cs ih =>
    have hcs : '\n' ∉ cs := fun e => ht (by simp [e])
    have hw1 : wildcardUsedAt ((c :: cs) ++ '\n' :: rest) = false := by
      simp only [List.cons_append, noWildcardUse, Bool.and_eq_true, Bool.not_eq_true'] at hw
      exact hw.1
    have hw2 : noWildcardUse (cs ++ '\n' :: rest) = true := by
      simp only [List.cons_append, noWildcardUse, Bool.and_eq_true] at hw
      exact hw.2
    cases hm : dropPrefix? marker (c :: cs) with
    | none =>
      have := matchAt_of_no_marker (c :: cs) rest hm hw1
      rw [List.cons_append] at this ⊢
      rw [findAll_cons, this]
      simp only [afterMarker?, hm]
      exact ih hcs hw2
    | some r =>
      have hr : '\n' ∉ r := by
        have e := (dropPrefix?_eq_some _ _ _).1 hm
        intro hmem
        exact ht (by rw [e]; simp [hmem])
      have := matchAt_of_marker (c :: cs) r rest hr hm
      rw [List.cons_append] at this ⊢
      rw [findAll_cons, this]
      simp [afterMarker?, hm]

theorem terminatedLinesAux_of_no_newline (cur t : List Char) (ht : '\n' ∉ t) :
    terminatedLinesAux cur t = [] := by
  induction t generalizing cur with
  | nil => rfl
  | cons c cs ih =>
    have hc : c ≠ '\n' := fun e => ht (by simp [e])
    simp only [terminatedLinesAux, hc, if_false]
    exact ih _ (fun e => ht (by simp [e]))

theorem terminatedLinesAux_line (cur t rest : List Char) (ht : '\n' ∉ t) :
    terminatedLinesAux cur (t ++ '\n' :: rest) = (cur.reverse ++ t) :: terminatedLines rest := by
  induction t generalizing cur with
  | nil => simp [terminatedLinesAux, terminatedLines]
  | cons c cs ih =>
    have hc : c ≠ '\n' := fun e => ht (by simp [e])
    have hstep : terminatedLinesAux cur (c :: cs ++ '\n' :: rest)
        = terminatedLinesAux (c :: cur) (cs ++ '\n' :: rest) := by
      rw [List.cons_append, terminatedLinesAux, if_neg hc]
    rw [hstep, ih _ (fun e => ht (by simp [e]))]
    simp

/-- A text either has no line break or is a first line, a line break and a rest. -/
theorem line_split (s : List Char) :
    '\n' ∉ s ∨ ∃ t rest, '\n' ∉ t ∧ s = t ++ '\n' :: rest := by
  induction s with
  | nil => left; simp
  | cons c cs ih =>
    by_cases hc : c = '\n'
    · right; exact ⟨[], cs, by simp, by simp [hc]⟩
    · rcases ih with h | ⟨t, rest, ht, e⟩
      · left
        simp only [List.mem_cons, not_or]
        exact ⟨fun e => hc e.symm, h⟩
      · right
        refine ⟨c :: t, rest, ?_, by simp [e]⟩
        simp only [List.mem_cons, not_or]
        exact ⟨fun e => hc e.symm, ht⟩

/-- The regular expression search finds, in order, the marker lines of the text. -/
theorem findAll_eq_markerLines (s : List Char) (hw : noWildcardUse s = true) :
    findAll s = markerLines s := by
  generalize hn : s.length = n
  induction n using Nat.strong_induction_on generalizing s with
  | _ n ih =>
    rcases line_split s with h | ⟨t, rest, ht, e⟩
    · rw [findAll_of_no_newline s h]
      simp [markerLines, terminatedLines, terminatedLinesAux_of_no_newline [] s h]
    · subst e
      have hrest := noWildcardUse_append_right (t ++ ['\n']) rest (by simpa using hw)
      rw [findAll_line t rest ht hw]
      rw [ih rest.length (by rw [← hn]; simp; omega) rest hrest rfl]
      simp only [markerLines, terminatedLines, terminatedLinesAux_line [] t rest ht]
      simp only [List.reverse_nil, List.nil_append, List.filterMap_cons]
      cases afterMarker? t <;> simp

theorem findAllSubmatch_eq (output : String) (hw : noWildcardUse output.data = true) :
    findAllSubmatch output = (markerLines output.data).map String.mk := by
  unfold findAllSubmatch
  rw [findAll_eq_markerLines _ hw]

/-! ### The scan for the latest savepoint -/

theorem normalise_eq (dir : String) :
    (if hasSlashSuffix dir then trimSlashSuffix dir else dir) = trimSlashSuffix dir := by
  unfold trimSlashSuffix
  split <;> rfl

/-- What the loop returns when every entry's metadata can be read: either nothing
beat `newestTime` and `newestFile` is kept, or the path of an entry that is later than
`newestTime` and at least as late as every entry. -/
theorem latestLoop_result (env : Env) (dir : String) (files : List FileInfo)
    (hstat : StatAgrees env dir files) (newestFile : String) (newestTime : Int) :
    ∃ res, (latestLoop env dir files newestFile newestTime).2 = .ok res ∧
      ((res = newestFile ∧ ∀ g ∈ files, g.modTime ≤ newestTime) ∨
        (∃ g ∈ files, res = dir ++ "/" ++ g.name ∧ newestTime < g.modTime ∧
          ∀ h ∈ files, h.modTime ≤ g.modTime)) := by
  induction files generalizing newestFile newestTime with
  | nil => exact ⟨newestFile, rfl, Or.inl ⟨rfl, by simp⟩⟩
  | cons f rest ih =>
    have hrest : StatAgrees env dir rest := fun g hg => hstat g (List.mem_cons_of_mem _ hg)
    obtain ⟨fi, hfi, hmt⟩ := hstat f (List.mem_cons_self _ _)
    unfold latestLoop
    simp only [hfi, hmt]
    by_cases hgt : f.modTime > newestTime
    · simp only [hgt, if_true]
      obtain ⟨res, hres, hcase⟩ := ih hrest (dir ++ "/" ++ f.name) f.modTime
      refine ⟨res, hres, Or.inr ?_⟩
      rcases hcase with ⟨hkeep, hle⟩ | ⟨g, hg, hpath, hlt, hmax⟩
      · refine ⟨f, List.mem_cons_self _ _, hkeep, hgt, ?_⟩
        intro h hh
        rcases List.mem_cons.1 hh with rfl | hh
        · exact le_refl _
        · exact hle h hh
      · refine ⟨g, List.mem_cons_of_mem _ hg, hpath, lt_trans hgt hlt, ?_⟩
        intro h hh
        rcases List.mem_cons.1 hh with rfl | hh
        · exact le_of_lt hlt
        · exact hmax h hh
    · simp only [hgt, if_false]
      obtain ⟨res, hres, hcase⟩ := ih hrest newestFile newestTime
      refine ⟨res, hres, ?_⟩
      rcases hcase with ⟨hkeep, hle⟩ | ⟨g, hg, hpath, hlt, hmax⟩
      · refine Or.inl ⟨hkeep, ?_⟩
        intro h hh
        rcases List.mem_cons.1 hh with rfl | hh
        · exact not_lt.1 hgt
        · exact hle h hh
      · refine Or.inr ⟨g, List.mem_cons_of_mem _ hg, hpath, hlt, ?_⟩
        intro h hh
        rcases List.mem_cons.1 hh with rfl | hh
        · exact le_trans (not_lt.1 hgt) (le_of_lt hlt)
        · exact hmax h hh

/-- The calls of the loop when every entry's metadata can be read: one `Stat` for
each entry, in listing order. -/
theorem latestLoop_calls (env : Env) (dir : String) (files : List FileInfo)
    (hstat : StatAgrees env dir files) (newestFile : String) (newestTime : Int) :
    (latestLoop env dir files newestFile newestTime).1 =
      files.map (fun g => Call.stat (dir ++ "/" ++ g.name)) := by
  induction files generalizing newestFile newestTime with
  | nil => rfl
  | cons f rest ih =>
    have hrest : StatAgrees env dir rest := fun g hg => hstat g (List.mem_cons_of_mem _ hg)
    obtain ⟨fi, hfi, -⟩ := hstat f (List.mem_cons_self _ _)
    unfold latestLoop
    simp only [hfi, List.map_cons, List.cons.injEq, true_and]
    split
    · exact ih hrest _ _
    · exact ih hrest _ _

/-- With a readable directory, `RetrieveLatestSavepoint` lists it, reads the metadata
of each entry and returns the empty string or the path of a latest entry, which then
was modified after the epoch. -/
theorem RetrieveLatestSavepoint_of_readable (env : Env) (dir : String) (files : List FileInfo)
    (hlist : env.readDir (trimSlashSuffix dir) = .ok files)
    (hstat : StatAgrees env (trimSlashSuffix dir) files) :
    ∃ res, RetrieveLatestSavepoint env dir =
        (Call.readDir (trimSlashSuffix dir) ::
          files.map (fun g => Call.stat (trimSlashSuffix dir ++ "/" ++ g.name)), .ok res) ∧
      ((res = "" ∧ ∀ g ∈ files, g.modTime ≤ 0) ∨
        (∃ g ∈ files, res = trimSlashSuffix dir ++ "/" ++ g.name ∧ 0 < g.modTime ∧
          ∀ h ∈ files, h.modTime ≤ g.modTime)) := by
  obtain ⟨res, hres, hcase⟩ := latestLoop_result env _ files hstat "" 0
  refine ⟨res, ?_, hcase⟩
  unfold RetrieveLatestSavepoint
  simp only [normalise_eq, hlist]
  rw [latestLoop_calls env _ files hstat, hres]

/-! ### Strings and traces -/

theorem length_ne_zero_of_ne_empty (s : String) (h : s ≠ "") : ¬ s.length = 0 := by
  intro h0
  apply h
  cases s with
  | mk d =>
    have : d = [] := List.eq_nil_of_length_eq_zero h0
    subst this
    rfl

theorem path_length_ne_zero (dir name : String) : (dir ++ "/" ++ name).length ≠ 0 := by
  simp only [String.length_append]
  have : ("/" : String).length = 1 := rfl
  omega

/-- Success of `CreateSavepoint` comes only after the trigger and the existence check. -/
theorem CreateSavepoint_ok (env : Env) (jobId savepoint : String) (calls : List Call)
    (h : CreateSavepoint env jobId = (calls, .ok savepoint)) :
    calls = [Call.savepoint jobId, Call.fsExists savepoint] ∧
      ∃ out, env.savepoint jobId = .ok out ∧ ExtractSavepointPath out = .ok savepoint ∧
        ∃ b, env.fsExists savepoint = .ok b := by
  unfold CreateSavepoint at h
  split at h
  · simp at h
  · rename_i out hout
    split at h
    · simp at h
    · rename_i sp hsp
      split at h
      · simp at h
      · rename_i b hb
        simp only [Prod.mk.injEq, Except.ok.injEq] at h
        obtain ⟨hc, hs⟩ := h
        subst hs
        exact ⟨hc.symm, out, hout, hsp, b, hb⟩

/-- No cancel request is made by `CreateSavepoint`. -/
theorem CreateSavepoint_no_cancel (env : Env) (jobId id : String) :
    Call.cancelJob id ∉ (CreateSavepoint env jobId).1 := by
  unfold CreateSavepoint
  split
  · simp
  · split
    · simp
    · split <;> simp

/-- The loop of `RetrieveLatestSavepoint` makes only `Stat` calls. -/
theorem latestLoop_only_stat (env : Env) (dir : String) (files : List FileInfo)
    (newestFile : String) (newestTime : Int) :
    ∀ c ∈ (latestLoop env dir files newestFile newestTime).1, ∃ path, c = Call.stat path := by
  induction files generalizing newestFile newestTime with
  | nil => intro c hc; simp [latestLoop] at hc
  | cons f rest ih =>
    intro c hc
    cases hst : env.stat (dir ++ "/" ++ f.name) with
    | error err =>
      simp only [latestLoop, hst, List.mem_singleton] at hc
      exact ⟨_, hc⟩
    | ok fi =>
      simp only [latestLoop, hst, List.mem_cons] at hc
      rcases hc with hc | hc
      · exact ⟨_, hc⟩
      · split at hc
        · exact ih _ _ c hc
        · exact ih _ _ c hc

/-- No cancel request is made by `RetrieveLatestSavepoint`. -/
theorem RetrieveLatestSavepoint_no_cancel (env : Env) (dir id : String) :
    Call.cancelJob id ∉ (RetrieveLatestSavepoint env dir).1 := by
  intro hmem
  cases hrd : env.readDir (trimSlashSuffix dir) with
  | error err =>
    simp [RetrieveLatestSavepoint, normalise_eq, hrd] at hmem
  | ok files =>
    simp only [RetrieveLatestSavepoint, normalise_eq, hrd, List.mem_cons] at hmem
    rcases hmem with h | h
    · simp at h
    · obtain ⟨path, hp⟩ := latestLoop_only_stat _ _ _ _ _ _ h
      simp at hp

/-- A trace without cancel requests is in order. -/
theorem SavepointBeforeCancel_of_no_cancel (t : List Call)
    (h : ∀ id, Call.cancelJob id ∉ t) : SavepointBeforeCancel t := by
  intro pre post jobId e
  exact absurd (by rw [e]; simp) (h jobId)

/-- A trace that ends in its only cancel request and the deploy call is in order
when the savepoint trigger for that instance is in it. -/
theorem SavepointBeforeCancel_of_shape (a : List Call) (jobId : String) (d : Deploy)
    (hno : ∀ id, Call.cancelJob id ∉ a) (hs : Call.savepoint jobId ∈ a) :
    SavepointBeforeCancel (a ++ [Call.cancelJob jobId, Call.deploy d]) := by
  intro pre post id e
  rcases List.append_eq_append_iff.1 e with ⟨x, hx, hy⟩ | ⟨x, hx, hy⟩
  · cases x with
    | nil =>
      simp only [List.nil_append, List.cons.injEq, Call.cancelJob.injEq] at hy
      obtain ⟨hid, hpost⟩ := hy
      subst hid
      simp only [List.append_nil] at hx
      subst hx
      subst hpost
      exact ⟨hs, by simp⟩
    | cons c x =>
      simp only [List.cons_append, List.cons.injEq] at hy
      obtain ⟨-, hy2⟩ := hy
      have : Call.cancelJob id ∈ [Call.deploy d] := by rw [hy2]; simp
      simp at this
  · cases x with
    | nil =>
      simp only [List.nil_append, List.cons.injEq, Call.cancelJob.injEq] at hy
      obtain ⟨hid, hpost⟩ := hy
      subst hid
      simp only [List.append_nil] at hx
      subst hx
      subst hpost
      exact ⟨hs, by simp⟩
    | cons c x =>
      simp only [List.cons_append, List.cons.injEq] at hy
      exact absurd (by rw [hx, ← hy.1]; simp) (hno id)

/-! ### Claims -/

/-- C1 (code defect): `CreateSavepoint` returns the path `/sp/orders-1` without an
error although the existence check for that path answered that it does not exist. -/
theorem C1_CreateSavepoint_returns_missing_path :
    envMissingPath.fsExists "/sp/orders-1" = .ok false ∧
    CreateSavepoint envMissingPath "jid-7" =
      ([Call.savepoint "jid-7", Call.fsExists "/sp/orders-1"], .ok "/sp/orders-1") := by
  constructor <;> rfl

/-- C2 as stated fails. A text with two occurrences of the marker on one line is
accepted (it is not rejected with the multiple-matches error), and a text with no
occurrence of the marker is accepted when another character stands in place of the
full stop. -/
theorem C2_counterexample :
    (markerOccurrences
        "Savepoint completed. Path: file:Savepoint completed. Path: file:/a\n".data
        = ["Savepoint completed. Path: file:/a".data, "/a".data] ∧
      ExtractSavepointPath
        "Savepoint completed. Path: file:Savepoint completed. Path: file:/a\n"
        = .ok "Savepoint completed. Path: file:/a") ∧
    (markerOccurrences "Savepoint completed! Path: file:/a\n".data = [] ∧
      ExtractSavepointPath "Savepoint completed! Path: file:/a\n" = .ok "/a") := by
  refine ⟨⟨?_, ?_⟩, ?_, ?_⟩ <;> rfl

/-- C2 (amended): for a text in which the `.` of the pattern can only fall on a full
stop, `ExtractSavepointPath` succeeds exactly when one line that ends in a line break
contains the marker, and returns the text between the first marker of that line and
the line break; with no such line it fails with the could-not-extract error, with two
or more such lines with the multiple-matches error. -/
theorem C2_extract_iff_one_marker_line (output : String)
    (hw : noWildcardUse output.data = true) :
    (∀ p : String, ExtractSavepointPath output = .ok p ↔ markerLines output.data = [p.data]) ∧
    (markerLines output.data = [] →
      ExtractSavepointPath output =
        .error (errorsNew "could not extract savepoint path from Flink's output")) ∧
    (2 ≤ (markerLines output.data).length →
      ExtractSavepointPath output =
        .error (errorsNew "multiple matches for savepoint found")) := by
  have hfind := findAllSubmatch_eq output hw
  unfold ExtractSavepointPath
  rw [hfind]
  rcases hl : markerLines output.data with _ | ⟨m, _ | ⟨m2, ms⟩⟩
  · refine ⟨fun p => ?_, fun _ => rfl, fun h => ?_⟩
    · simp
    · simp at h
  · refine ⟨fun p => ?_, fun h => ?_, fun h => ?_⟩
    · simp only [List.map_cons, List.map_nil, Except.ok.injEq, List.cons.injEq, and_true]
      constructor
      · intro h; rw [← h]
      · intro h; rw [h]
    · simp at h
    · simp at h
  · refine ⟨fun p => ?_, fun h => ?_, fun _ => rfl⟩
    · simp
    · simp at h

/-- C2, witness: the output of the specification's scenario. -/
theorem C2_extract_iff_one_marker_line_witness :
    noWildcardUse "...\nSavepoint completed. Path: file:/sp/orders-1\n...".data = true ∧
    ExtractSavepointPath "...\nSavepoint completed. Path: file:/sp/orders-1\n..."
      = .ok "/sp/orders-1" :=
  ⟨by decide,
    ((C2_extract_iff_one_marker_line
      "...\nSavepoint completed. Path: file:/sp/orders-1\n..." (by decide)).1
        "/sp/orders-1").2 (by decide)⟩

/-- C3 (code defect): the directory `/sp` lists the single entry `a`, modified at
second 0, which is the entry with the maximum modification time, and
`RetrieveLatestSavepoint` returns the empty string, not `/sp/a`: the scan starts from
`newestTime = 0` and compares with a strict `>`. -/
theorem C3_epoch_entry_not_returned :
    envEpoch.readDir "/sp" = .ok [⟨"a", 0⟩] ∧
    envEpoch.stat "/sp/a" = .ok ⟨"a", 0⟩ ∧
    RetrieveLatestSavepoint envEpoch "/sp" =
      ([Call.readDir "/sp", Call.stat "/sp/a"], .ok "") ∧
    (RetrieveLatestSavepoint envEpoch "/sp").2 ≠ .ok "/sp/a" := by
  refine ⟨rfl, rfl, rfl, ?_⟩
  intro h
  have h2 : (Except.ok "" : Except GoError String) = .ok "/sp/a" := h
  simp at h2

/-- What the scan does achieve: when the listing succeeds, the metadata of every entry
can be read, the modification times are pairwise distinct and the greatest of them is
after the epoch, `RetrieveLatestSavepoint` returns without error the path (normalised
directory, `/`, entry name) of the entry with the greatest modification time. -/
theorem RetrieveLatestSavepoint_of_distinct_times (env : Env) (dir : String) (files : List FileInfo)
    (f : FileInfo)
    (hlist : env.readDir (trimSlashSuffix dir) = .ok files)
    (hstat : StatAgrees env (trimSlashSuffix dir) files)
    (hdistinct : files.Pairwise (fun a b => a.modTime ≠ b.modTime))
    (hf : f ∈ files) (hmax : ∀ g ∈ files, g.modTime ≤ f.modTime) (hpos : 0 < f.modTime) :
    (RetrieveLatestSavepoint env dir).2 = .ok (trimSlashSuffix dir ++ "/" ++ f.name) := by
  obtain ⟨res, hrun, hcase⟩ := RetrieveLatestSavepoint_of_readable env dir files hlist hstat
  rw [hrun]
  rcases hcase with ⟨-, hle⟩ | ⟨g, hg, hpath, -, hgmax⟩
  · exact absurd (hle f hf) (not_le.2 hpos)
  · have heq : g.modTime = f.modTime := le_antisymm (hmax g hg) (hgmax f hf)
    have hgf : g = f := by
      by_contra hne
      exact hdistinct.forall (fun _ _ h => Ne.symm h) hg hf hne heq
    rw [hpath, hgf]

/-- Example: of `sp-1` (second 1700000000) and `sp-2` (second 1700000500) in `/sp/`,
the path `/sp/sp-2` is returned. -/
theorem RetrieveLatestSavepoint_distinct_times_example :
    (RetrieveLatestSavepoint envTwoSavepoints "/sp/").2 = .ok "/sp/sp-2" :=
  RetrieveLatestSavepoint_of_distinct_times envTwoSavepoints "/sp/"
    [⟨"sp-1", 1700000000⟩, ⟨"sp-2", 1700000500⟩] ⟨"sp-2", 1700000500⟩
    rfl
    (by
      intro g hg
      simp only [List.mem_cons, List.mem_singleton, List.not_mem_nil, or_false] at hg
      rcases hg with rfl | rfl
      · exact ⟨⟨"sp-1", 1700000000⟩, rfl, rfl⟩
      · exact ⟨⟨"sp-2", 1700000500⟩, rfl, rfl⟩)
    (by decide) (by decide) (by decide) (by decide)

/-- C4: with a non-empty job name and `n ≥ 2` running instance ids, `execute` makes
no call but the instance query and returns an error whose message contains the job
name and the decimal count `n`. -/
theorem C4_conflict_on_many_instances (env : Env) (u : UpdateJob) (jobIds : List String)
    (hname : u.jobName ≠ "")
    (hquery : env.retrieveRunningJobIds u.jobName = .ok jobIds)
    (hmany : 2 ≤ jobIds.length) :
    ∃ err, UpdateJob.execute env u =
        ([Call.retrieveRunningJobIds u.jobName], (none, some err)) ∧
      u.jobName.data <:+: err.msg.data ∧
      (Nat.repr jobIds.length).data <:+: err.msg.data := by
  refine ⟨instancesRunningError u.jobName jobIds.length, ?_, ?_, ?_⟩
  · unfold UpdateJob.execute
    rw [if_neg (length_ne_zero_of_ne_empty _ hname)]
    simp only [hquery]
    rcases jobIds with _ | ⟨a, _ | ⟨b, rest⟩⟩
    · simp at hmany
    · simp at hmany
    · rfl
  · exact ⟨[], (" has " ++ toString jobIds.length ++ " instances running").data, by
      simp [instancesRunningError, String.data_append]⟩
  · exact ⟨(u.jobName ++ " has ").data, (" instances running" : String).data, by
      simp [instancesRunningError, String.data_append, toString]⟩

/-- C4, witness: two running instances of `orders-job`. -/
theorem C4_conflict_on_many_instances_witness :
    ∃ err, UpdateJob.execute envTwoInstances (ordersJob "/sp") =
        ([Call.retrieveRunningJobIds "orders-job"], (none, some err)) ∧
      "orders-job".data <:+: err.msg.data ∧ "2".data <:+: err.msg.data :=
  C4_conflict_on_many_instances envTwoInstances (ordersJob "/sp") ["jid-1", "jid-2"]
    (by decide) rfl (by decide)

/-- C5: with a non-empty job name, exactly one running instance and a successful
savepoint creation, the path returned is the one `ExtractSavepointPath` extracts from
the output of that instance's savepoint trigger, and the deploy collaborator gets the
request that carries it. -/
theorem C5_deploys_extracted_path (env : Env) (u : UpdateJob) (jobId out savepoint : String)
    (hname : u.jobName ≠ "")
    (hquery : env.retrieveRunningJobIds u.jobName = .ok [jobId])
    (hout : env.savepoint jobId = .ok out)
    (hcreate : (CreateSavepoint env jobId).2 = .ok savepoint) :
    ExtractSavepointPath out = .ok savepoint ∧
    UpdateJob.execute env u =
      ([Call.retrieveRunningJobIds u.jobName, Call.savepoint jobId, Call.fsExists savepoint,
          Call.cancelJob jobId, Call.deploy (deployOf u savepoint)],
        env.deploy (deployOf u savepoint)) := by
  have hpair : CreateSavepoint env jobId = ((CreateSavepoint env jobId).1, .ok savepoint) := by
    rw [← hcreate]
  obtain ⟨hcalls, out2, hout2, hext, -⟩ := CreateSavepoint_ok env jobId savepoint _ hpair
  rw [hout] at hout2
  cases hout2
  refine ⟨hext, ?_⟩
  unfold UpdateJob.execute
  rw [if_neg (length_ne_zero_of_ne_empty _ hname)]
  simp only [hquery]
  rw [hpair, hcalls]
  rfl

/-- C5, witness: the scenario of the specification; the deployment carries
`/sp/orders-1`. -/
theorem C5_deploys_extracted_path_witness :
    ExtractSavepointPath "...\nSavepoint completed. Path: file:/sp/orders-1\n..."
      = .ok "/sp/orders-1" ∧
    UpdateJob.execute envOrders (ordersJob "") =
      ([Call.retrieveRunningJobIds "orders-job", Call.savepoint "jid-7",
          Call.fsExists "/sp/orders-1", Call.cancelJob "jid-7",
          Call.deploy (deployOf (ordersJob "") "/sp/orders-1")],
        (some "deployed from /sp/orders-1", none)) :=
  C5_deploys_extracted_path envOrders (ordersJob "") "jid-7"
    "...\nSavepoint completed. Path: file:/sp/orders-1\n..." "/sp/orders-1"
    (by decide) rfl rfl rfl

/-- The run of `execute` on the single-instance path with a successful savepoint
creation. -/
theorem execute_single (env : Env) (u : UpdateJob) (jobId savepoint : String)
    (hname : u.jobName ≠ "")
    (hquery : env.retrieveRunningJobIds u.jobName = .ok [jobId])
    (hcreate : (CreateSavepoint env jobId).2 = .ok savepoint) :
    UpdateJob.execute env u =
      (Call.retrieveRunningJobIds u.jobName ::
          (CreateSavepoint env jobId).1 ++
            [Call.cancelJob jobId, Call.deploy (deployOf u savepoint)],
        env.deploy (deployOf u savepoint)) := by
  have hpair : CreateSavepoint env jobId = ((CreateSavepoint env jobId).1, .ok savepoint) := by
    rw [← hcreate]
  unfold UpdateJob.execute
  rw [if_neg (length_ne_zero_of_ne_empty _ hname)]
  simp only [hquery]
  rw [hpair]
  rfl

/-- C6: on the single-instance path with a successful savepoint creation, replacing
the outcome of the cancel request by any other outcome changes neither the calls made
nor the result of `execute`: the deploy collaborator gets the same request, and
`execute` returns what it answers. -/
theorem C6_cancel_outcome_ignored (env : Env) (u : UpdateJob) (jobId savepoint : String)
    (cancelOutcome : String → Option GoError)
    (hname : u.jobName ≠ "")
    (hquery : env.retrieveRunningJobIds u.jobName = .ok [jobId])
    (hcreate : (CreateSavepoint env jobId).2 = .ok savepoint) :
    UpdateJob.execute { env with cancelJob := cancelOutcome } u = UpdateJob.execute env u ∧
    Call.deploy (deployOf u savepoint) ∈ (UpdateJob.execute env u).1 ∧
    (UpdateJob.execute env u).2 = env.deploy (deployOf u savepoint) := by
  have hrun := execute_single env u jobId savepoint hname hquery hcreate
  have hrun2 := execute_single { env with cancelJob := cancelOutcome } u jobId savepoint
    hname hquery hcreate
  refine ⟨?_, ?_, ?_⟩
  · rw [hrun, hrun2]; rfl
  · rw [hrun]; simp
  · rw [hrun]

/-- C6, witness: the scenario of the specification with a failing cancel request. -/
theorem C6_cancel_outcome_ignored_witness :
    UpdateJob.execute
        { envOrders with cancelJob := fun _ => some ⟨"could not cancel the job"⟩ }
        (ordersJob "") = UpdateJob.execute envOrders (ordersJob "") ∧
    Call.deploy (deployOf (ordersJob "") "/sp/orders-1") ∈
      (UpdateJob.execute envOrders (ordersJob "")).1 ∧
    (UpdateJob.execute envOrders (ordersJob "")).2 =
      (some "deployed from /sp/orders-1", none) :=
  C6_cancel_outcome_ignored envOrders (ordersJob "") "jid-7" "/sp/orders-1"
    (fun _ => some ⟨"could not cancel the job"⟩) (by decide) rfl rfl

/-- C7: in the trace of every run of `execute`, each cancel request has the
savepoint trigger for the same instance id before it and no savepoint trigger after
it. -/
theorem C7_savepoint_before_cancel (env : Env) (u : UpdateJob) :
    SavepointBeforeCancel (UpdateJob.execute env u).1 := by
  unfold UpdateJob.execute
  split
  · exact SavepointBeforeCancel_of_no_cancel _ (by simp)
  · cases hq : env.retrieveRunningJobIds u.jobName with
    | error err => exact SavepointBeforeCancel_of_no_cancel _ (by simp)
    | ok jobIds =>
      rcases jobIds with _ | ⟨jobId, _ | ⟨b, rest⟩⟩
      · simp only
        split
        · exact SavepointBeforeCancel_of_no_cancel _ (by simp)
        · have hno := RetrieveLatestSavepoint_no_cancel env u.savepointDirectory
          split
          · rename_i calls err heq
            rw [heq] at hno
            exact SavepointBeforeCancel_of_no_cancel _ (by
              intro id
              have hid : Call.cancelJob id ∉ calls := hno id
              simp [hid])
          · rename_i calls latest heq
            rw [heq] at hno
            exact SavepointBeforeCancel_of_no_cancel _ (by
              intro id
              have hid : Call.cancelJob id ∉ calls := hno id
              simp [hid])
      · simp only
        have hno := CreateSavepoint_no_cancel env jobId
        split
        · rename_i calls err heq
          rw [heq] at hno
          exact SavepointBeforeCancel_of_no_cancel _ (by
            intro id
            have hid : Call.cancelJob id ∉ calls := hno id
            simp [hid])
        · rename_i calls savepoint heq
          obtain ⟨hcalls, -⟩ := CreateSavepoint_ok env jobId savepoint calls heq
          subst hcalls
          exact SavepointBeforeCancel_of_shape
            [Call.retrieveRunningJobIds u.jobName, Call.savepoint jobId, Call.fsExists savepoint]
            jobId _ (by simp) (by simp)
      · exact SavepointBeforeCancel_of_no_cancel _ (by simp)

/-- C8 (code defect): with no running instance and the directory `/sp` holding the
single file `a`, modified at second 0, the deployment request carries no savepoint
path instead of `/sp/a`, the most recently modified file of the directory. -/
theorem C8_epoch_savepoint_not_deployed :
    envEpoch.retrieveRunningJobIds "orders-job" = .ok [] ∧
    envEpoch.readDir "/sp" = .ok [⟨"a", 0⟩] ∧
    UpdateJob.execute envEpoch (ordersJob "/sp") =
      ([Call.retrieveRunningJobIds "orders-job", Call.readDir "/sp", Call.stat "/sp/a",
          Call.deploy (deployOf (ordersJob "/sp") "")],
        (some "deployed", none)) :=
  ⟨rfl, rfl, rfl⟩

/-- What `execute` does achieve: with a non-empty job name, no running instance and a
non-empty savepoint directory whose listing succeeds, whose entries' metadata can be
read and which holds a file modified after the epoch, the deployment request handed to
the deploy collaborator carries the path of a file of that directory with the greatest
modification time. -/
theorem execute_deploys_latest_savepoint (env : Env) (u : UpdateJob) (files : List FileInfo)
    (hname : u.jobName ≠ "")
    (hquery : env.retrieveRunningJobIds u.jobName = .ok [])
    (hdir : u.savepointDirectory ≠ "")
    (hlist : env.readDir (trimSlashSuffix u.savepointDirectory) = .ok files)
    (hstat : StatAgrees env (trimSlashSuffix u.savepointDirectory) files)
    (hpos : ∃ f ∈ files, 0 < f.modTime) :
    ∃ g ∈ files, (∀ h ∈ files, h.modTime ≤ g.modTime) ∧
      UpdateJob.execute env u =
        (Call.retrieveRunningJobIds u.jobName ::
            Call.readDir (trimSlashSuffix u.savepointDirectory) ::
            files.map (fun f => Call.stat (trimSlashSuffix u.savepointDirectory ++ "/" ++ f.name))
            ++ [Call.deploy
              (deployOf u (trimSlashSuffix u.savepointDirectory ++ "/" ++ g.name))],
          env.deploy (deployOf u (trimSlashSuffix u.savepointDirectory ++ "/" ++ g.name))) := by
  obtain ⟨res, hrun, hcase⟩ :=
    RetrieveLatestSavepoint_of_readable env u.savepointDirectory files hlist hstat
  obtain ⟨f, hf, hfpos⟩ := hpos
  rcases hcase with ⟨-, hle⟩ | ⟨g, hg, hpath, -, hgmax⟩
  · exact absurd (hle f hf) (not_le.2 hfpos)
  · refine ⟨g, hg, hgmax, ?_⟩
    subst hpath
    unfold UpdateJob.execute
    rw [if_neg (length_ne_zero_of_ne_empty _ hname)]
    simp only [hquery]
    rw [if_neg (length_ne_zero_of_ne_empty _ hdir), hrun]
    simp only [ne_eq, path_length_ne_zero, not_false_eq_true, if_true]
    rfl

/-- Example: of `sp-1` and `sp-2` in `/sp`, the later `sp-2` seeds the deployment. -/
theorem execute_deploys_latest_savepoint_example :
    ∃ g ∈ [(⟨"sp-1", 1700000000⟩ : FileInfo), ⟨"sp-2", 1700000500⟩],
      (∀ h ∈ [(⟨"sp-1", 1700000000⟩ : FileInfo), ⟨"sp-2", 1700000500⟩],
        h.modTime ≤ g.modTime) ∧
      UpdateJob.execute envTwoSavepoints (ordersJob "/sp") =
        (Call.retrieveRunningJobIds "orders-job" :: Call.readDir "/sp" ::
            [Call.stat "/sp/sp-1", Call.stat "/sp/sp-2"]
            ++ [Call.deploy (deployOf (ordersJob "/sp") ("/sp" ++ "/" ++ g.name))],
          envTwoSavepoints.deploy (deployOf (ordersJob "/sp") ("/sp" ++ "/" ++ g.name))) :=
  execute_deploys_latest_savepoint envTwoSavepoints (ordersJob "/sp")
    [⟨"sp-1", 1700000000⟩, ⟨"sp-2", 1700000500⟩] (by decide) rfl (by decide) rfl
    (by
      intro g hg
      simp only [List.mem_cons, List.mem_singleton, List.not_mem_nil, or_false] at hg
      rcases hg with rfl | rfl
      · exact ⟨⟨"sp-1", 1700000000⟩, rfl, rfl⟩
      · exact ⟨⟨"sp-2", 1700000500⟩, rfl, rfl⟩)
    ⟨⟨"sp-2", 1700000500⟩, by simp, by decide⟩

/-- C9: with a non-empty job name, no running instance and an empty savepoint
directory string, `execute` makes no call but the instance query and fails with the
error that the savepoint directory is not specified. -/
theorem C9_missing_savepoint_directory (env : Env) (u : UpdateJob)
    (hname : u.jobName ≠ "")
    (hquery : env.retrieveRunningJobIds u.jobName = .ok [])
    (hdir : u.savepointDirectory = "") :
    UpdateJob.execute env u =
      ([Call.retrieveRunningJobIds u.jobName],
        (none, some (errorsNew
          "cannot retrieve the latest savepoint without specifying the savepoint directory"))) := by
  unfold UpdateJob.execute
  rw [if_neg (length_ne_zero_of_ne_empty _ hname)]
  simp only [hquery]
  rw [if_pos (by rw [hdir]; rfl)]

/-- C9, witness: `orders-job` with no running instance and no savepoint directory. -/
theorem C9_missing_savepoint_directory_witness :
    UpdateJob.execute envEpoch (ordersJob "") =
      ([Call.retrieveRunningJobIds "orders-job"],
        (none, some (errorsNew
          "cannot retrieve the latest savepoint without specifying the savepoint directory"))) :=
  C9_missing_savepoint_directory envEpoch (ordersJob "") (by decide) rfl rfl

/-- C10: with an empty job name, whatever the other fields and the collaborators'
answers, `execute` makes no collaborator call and fails with the unspecified-argument
error. -/
theorem C10_empty_job_name (env : Env) (u : UpdateJob) (hname : u.jobName = "") :
    UpdateJob.execute env u =
      ([], (none, some (errorsNew "unspecified argument 'jobName'"))) := by
  unfold UpdateJob.execute
  rw [if_pos (by rw [hname]; rfl)]

/-- C10, witness: the scenario's request with its job name removed, in an environment
whose collaborators would all answer. -/
theorem C10_empty_job_name_witness :
    UpdateJob.execute envOrders { ordersJob "/sp" with jobName := "" } =
      ([], (none, some (errorsNew "unspecified argument 'jobName'"))) :=
  C10_empty_job_name envOrders { ordersJob "/sp" with jobName := "" } rfl

/-- The run of `execute` with an empty job name. -/
theorem execute_empty_name (env : Env) (u : UpdateJob) (hname : u.jobName = "") :
    UpdateJob.execute env u =
      ([], (none, some (errorsNew "unspecified argument 'jobName'"))) := by
  unfold UpdateJob.execute
  rw [if_pos (by rw [hname]; rfl)]

/-- The calls of `CreateSavepoint` are the savepoint trigger and existence checks. -/
theorem CreateSavepoint_calls (env : Env) (jobId : String) :
    ∀ c ∈ (CreateSavepoint env jobId).1,
      c = Call.savepoint jobId ∨ ∃ path, c = Call.fsExists path := by
  unfold CreateSavepoint
  split
  · simp
  · split
    · simp
    · split <;> simp

/-- With no running instance and a savepoint directory given, a successful
`RetrieveLatestSavepoint` is followed by the deploy call with its result as savepoint
path: an empty result leaves the zero value of the field in place. -/
theorem execute_none (env : Env) (u : UpdateJob) (calls : List Call) (latest : String)
    (hname : u.jobName ≠ "")
    (hquery : env.retrieveRunningJobIds u.jobName = .ok [])
    (hdir : u.savepointDirectory ≠ "")
    (hlatest : RetrieveLatestSavepoint env u.savepointDirectory = (calls, .ok latest)) :
    UpdateJob.execute env u =
      (Call.retrieveRunningJobIds u.jobName :: calls ++ [Call.deploy (deployOf u latest)],
        env.deploy (deployOf u latest)) := by
  unfold UpdateJob.execute
  rw [if_neg (length_ne_zero_of_ne_empty _ hname)]
  simp only [hquery]
  rw [if_neg (length_ne_zero_of_ne_empty _ hdir), hlatest]
  by_cases hl : latest.length = 0
  · have he : latest = "" := by
      by_contra hne
      exact length_ne_zero_of_ne_empty _ hne hl
    subst he
    rfl
  · simp only [ne_eq, hl, not_false_eq_true, if_true]
    rfl

/-- The calls of `RetrieveLatestSavepoint` are a directory listing and `Stat` calls. -/
theorem RetrieveLatestSavepoint_calls (env : Env) (dir : String) :
    ∀ c ∈ (RetrieveLatestSavepoint env dir).1,
      c = Call.readDir (trimSlashSuffix dir) ∨ ∃ path, c = Call.stat path := by
  intro c hc
  cases hrd : env.readDir (trimSlashSuffix dir) with
  | error err =>
    simp only [RetrieveLatestSavepoint, normalise_eq, hrd, List.mem_singleton] at hc
    exact Or.inl hc
  | ok files =>
    simp only [RetrieveLatestSavepoint, normalise_eq, hrd, List.mem_cons] at hc
    rcases hc with h | h
    · exact Or.inl h
    · exact Or.inr (latestLoop_only_stat _ _ _ _ _ _ h)

/-- C11: when `execute` makes the deploy call, the request has the run arguments,
local and remote artifact, auth token, job arguments and allow-non-restorable-state
flag of the `UpdateJob`; its savepoint path is the result of `RetrieveLatestSavepoint`
(no running instance) or of `CreateSavepoint` (one running instance); and `execute`
returns the output and error of the deploy collaborator. -/
theorem C11_deploy_request_and_result (env : Env) (u : UpdateJob) (d : Deploy)
    (hcall : Call.deploy d ∈ (UpdateJob.execute env u).1) :
    (d.runArgs = u.runArgs ∧ d.localFilename = u.localFilename ∧
      d.remoteFilename = u.remoteFilename ∧ d.apiToken = u.apiToken ∧
      d.jarArgs = u.jarArgs ∧ d.allowNonRestorableState = u.allowNonRestorableState) ∧
    ((env.retrieveRunningJobIds u.jobName = .ok [] ∧
        (RetrieveLatestSavepoint env u.savepointDirectory).2 = .ok d.savepointPath) ∨
      (∃ jobId, env.retrieveRunningJobIds u.jobName = .ok [jobId] ∧
        (CreateSavepoint env jobId).2 = .ok d.savepointPath)) ∧
    (UpdateJob.execute env u).2 = env.deploy d := by
  by_cases hname : u.jobName = ""
  · rw [execute_empty_name env u hname] at hcall
    simp at hcall
  · cases hq : env.retrieveRunningJobIds u.jobName with
    | error err =>
      simp only [UpdateJob.execute, if_neg (length_ne_zero_of_ne_empty _ hname), hq] at hcall
      simp at hcall
    | ok jobIds =>
      rcases jobIds with _ | ⟨jobId, _ | ⟨b, rest⟩⟩
      · by_cases hdir : u.savepointDirectory = ""
        · simp only [UpdateJob.execute, if_neg (length_ne_zero_of_ne_empty _ hname), hq,
            hdir] at hcall
          simp at hcall
        · have hcalls := RetrieveLatestSavepoint_calls env u.savepointDirectory
          cases hr : RetrieveLatestSavepoint env u.savepointDirectory with
          | mk calls r =>
            rw [hr] at hcalls
            have hnot : Call.deploy d ∉ calls := by
              intro hmem
              rcases hcalls _ hmem with h | ⟨path, h⟩ <;> simp at h
            cases r with
            | error err =>
              simp only [UpdateJob.execute, if_neg (length_ne_zero_of_ne_empty _ hname), hq,
                if_neg (length_ne_zero_of_ne_empty _ hdir), hr] at hcall
              simp [hnot] at hcall
            | ok latest =>
              have hrun := execute_none env u calls latest hname hq hdir hr
              rw [hrun] at hcall ⊢
              simp only [List.cons_append, List.mem_cons, List.mem_append, List.mem_singleton,
                Call.deploy.injEq, hnot, false_or, reduceCtorEq, List.not_mem_nil,
                or_false] at hcall
              subst hcall
              exact ⟨⟨rfl, rfl, rfl, rfl, rfl, rfl⟩, Or.inl ⟨rfl, rfl⟩, rfl⟩
      · have hcalls := CreateSavepoint_calls env jobId
        cases hr : CreateSavepoint env jobId with
        | mk calls r =>
          rw [hr] at hcalls
          have hnot : Call.deploy d ∉ calls := by
            intro hmem
            rcases hcalls _ hmem with h | ⟨path, h⟩ <;> simp at h
          cases r with
          | error err =>
            simp only [UpdateJob.execute, if_neg (length_ne_zero_of_ne_empty _ hname), hq,
              hr] at hcall
            simp [hnot] at hcall
          | ok savepoint =>
            have hrun := execute_single env u jobId savepoint hname hq (by rw [hr])
            rw [hrun] at hcall ⊢
            rw [hr] at hcall
            simp only [List.cons_append, List.mem_cons, List.mem_append, List.mem_singleton,
              Call.deploy.injEq, hnot, false_or, reduceCtorEq, List.not_mem_nil,
              or_false] at hcall
            subst hcall
            exact ⟨⟨rfl, rfl, rfl, rfl, rfl, rfl⟩, Or.inr ⟨jobId, rfl, by rw [hr]; rfl⟩, rfl⟩
      · simp only [UpdateJob.execute, if_neg (length_ne_zero_of_ne_empty _ hname), hq] at hcall
        simp at hcall

/-- C11, witness: the deploy call of the specification's scenario. -/
theorem C11_deploy_request_and_result_witness :
    ((deployOf (ordersJob "") "/sp/orders-1").runArgs = "-p 2" ∧
      (deployOf (ordersJob "") "/sp/orders-1").localFilename = "orders.jar" ∧
      (deployOf (ordersJob "") "/sp/orders-1").remoteFilename = "" ∧
      (deployOf (ordersJob "") "/sp/orders-1").apiToken = "" ∧
      (deployOf (ordersJob "") "/sp/orders-1").jarArgs = "--env prod" ∧
      (deployOf (ordersJob "") "/sp/orders-1").allowNonRestorableState = false) ∧
    ((envOrders.retrieveRunningJobIds "orders-job" = .ok [] ∧
        (RetrieveLatestSavepoint envOrders "").2 = .ok "/sp/orders-1") ∨
      (∃ jobId, envOrders.retrieveRunningJobIds "orders-job" = .ok [jobId] ∧
        (CreateSavepoint envOrders jobId).2 = .ok "/sp/orders-1")) ∧
    (UpdateJob.execute envOrders (ordersJob "")).2 =
      (some "deployed from /sp/orders-1", none) :=
  C11_deploy_request_and_result envOrders (ordersJob "")
    (deployOf (ordersJob "") "/sp/orders-1") (by decide)

/-- The loop returns the first entry that is later than `newestTime` and than every
entry before it, when no entry after it is later still. -/
theorem latestLoop_first_max (env : Env) (dir : String) (pre post : List FileInfo)
    (f : FileInfo) (hstat : StatAgrees env dir (pre ++ f :: post))
    (hpre : ∀ g ∈ pre, g.modTime < f.modTime) (hpost : ∀ g ∈ post, g.modTime ≤ f.modTime)
    (newestFile : String) (newestTime : Int) (hnew : newestTime < f.modTime) :
    (latestLoop env dir (pre ++ f :: post) newestFile newestTime).2
      = .ok (dir ++ "/" ++ f.name) := by
  induction pre generalizing newestFile newestTime with
  | nil =>
    have hrest : StatAgrees env dir post := fun g hg => hstat g (by simp [hg])
    obtain ⟨fi, hfi, hmt⟩ := hstat f (by simp)
    simp only [List.nil_append, latestLoop, hfi, hmt, gt_iff_lt, hnew, if_true]
    obtain ⟨res, hres, hcase⟩ := latestLoop_result env dir post hrest (dir ++ "/" ++ f.name)
      f.modTime
    rw [hres]
    rcases hcase with ⟨hkeep, -⟩ | ⟨g, hg, -, hlt, -⟩
    · rw [hkeep]
    · exact absurd (hpost g hg) (not_le.2 hlt)
  | cons g pre ih =>
    have hrest : StatAgrees env dir (pre ++ f :: post) :=
      fun h hh => hstat h (by simp only [List.cons_append, List.mem_cons]; exact Or.inr hh)
    obtain ⟨gi, hgi, hmt⟩ := hstat g (by simp)
    have hpre2 : ∀ h ∈ pre, h.modTime < f.modTime := fun h hh => hpre h (by simp [hh])
    simp only [List.cons_append, latestLoop, hgi, hmt]
    split
    · exact ih hrest hpre2 _ _ (hpre g (by simp))
    · exact ih hrest hpre2 _ _ hnew

/-- C12 as stated fails: `sp-1` and `sp-2`, listed in this order, share the greatest
modification time, and the first of them, `/sp/sp-1`, is returned, not the last. -/
theorem C12_counterexample :
    envTie.readDir "/sp" = .ok [⟨"sp-1", 1700000000⟩, ⟨"sp-2", 1700000000⟩] ∧
    envTie.stat "/sp/sp-1" = .ok ⟨"sp-1", 1700000000⟩ ∧
    envTie.stat "/sp/sp-2" = .ok ⟨"sp-2", 1700000000⟩ ∧
    RetrieveLatestSavepoint envTie "/sp" =
      ([Call.readDir "/sp", Call.stat "/sp/sp-1", Call.stat "/sp/sp-2"], .ok "/sp/sp-1") ∧
    (RetrieveLatestSavepoint envTie "/sp").2 ≠ .ok "/sp/sp-2" := by
  refine ⟨rfl, rfl, rfl, rfl, ?_⟩
  intro h
  have h2 : (Except.ok "/sp/sp-1" : Except GoError String) = .ok "/sp/sp-2" := h
  simp only [Except.ok.injEq] at h2
  exact absurd h2 (by decide)

/-- C12 (amended): when the listing succeeds, the metadata of every entry can be read
and the greatest modification time is after the epoch, `RetrieveLatestSavepoint`
returns the first entry in enumeration order that has the greatest modification time:
every entry before it is strictly older, no entry after it is newer. -/
theorem C12_first_of_equal_maxima_wins (env : Env) (dir : String)
    (pre post : List FileInfo) (f : FileInfo)
    (hlist : env.readDir (trimSlashSuffix dir) = .ok (pre ++ f :: post))
    (hstat : StatAgrees env (trimSlashSuffix dir) (pre ++ f :: post))
    (hpre : ∀ g ∈ pre, g.modTime < f.modTime) (hpost : ∀ g ∈ post, g.modTime ≤ f.modTime)
    (hpos : 0 < f.modTime) :
    (RetrieveLatestSavepoint env dir).2 = .ok (trimSlashSuffix dir ++ "/" ++ f.name) := by
  unfold RetrieveLatestSavepoint
  simp only [normalise_eq, hlist]
  exact latestLoop_first_max env _ pre post f hstat hpre hpost "" 0 hpos

/-- C12, witness: of the equally late `sp-1` and `sp-2`, the first is returned. -/
theorem C12_first_of_equal_maxima_wins_witness :
    (RetrieveLatestSavepoint envTie "/sp/").2 = .ok "/sp/sp-1" :=
  C12_first_of_equal_maxima_wins envTie "/sp/" [] [⟨"sp-2", 1700000000⟩]
    ⟨"sp-1", 1700000000⟩ rfl
    (by
      intro g hg
      simp only [List.nil_append, List.mem_cons, List.mem_singleton, List.not_mem_nil,
        or_false] at hg
      rcases hg with rfl | rfl
      · exact ⟨⟨"sp-1", 1700000000⟩, rfl, rfl⟩
      · exact ⟨⟨"sp-2", 1700000000⟩, rfl, rfl⟩)
    (by simp) (by decide) (by decide)

/-- C13: when the listing of the (normalised) directory succeeds and has no entries,
`RetrieveLatestSavepoint` returns the empty string and no error, after the listing as
its only call. -/
theorem C13_empty_directory (env : Env) (dir : String)
    (hlist : env.readDir (trimSlashSuffix dir) = .ok []) :
    RetrieveLatestSavepoint env dir = ([Call.readDir (trimSlashSuffix dir)], .ok "") := by
  unfold RetrieveLatestSavepoint
  simp only [normalise_eq, hlist]
  rfl

/-- C13, witness: the empty directory `/sp`. -/
theorem C13_empty_directory_witness :
    RetrieveLatestSavepoint envEmptyDir "/sp" = ([Call.readDir "/sp"], .ok "") :=
  C13_empty_directory envEmptyDir "/sp" rfl

/-- C14 (code defect): the output `Savepoint completed, Path: file:/sp/orders-1` has
a comma where the marker has its full stop (the text has no full stop at all), and
`ExtractSavepointPath` accepts it and returns `/sp/orders-1`. -/
theorem C14_accepts_text_without_literal_marker :
    '.' ∉ "Savepoint completed, Path: file:/sp/orders-1\n".data ∧
    markerOccurrences "Savepoint completed, Path: file:/sp/orders-1\n".data = [] ∧
    ExtractSavepointPath "Savepoint completed, Path: file:/sp/orders-1\n"
      = .ok "/sp/orders-1" := by
  refine ⟨by decide, rfl, rfl⟩

theorem trimSlashSuffix_append_slash (d : String) : trimSlashSuffix (d ++ "/") = d := by
  have hdata : (d ++ "/").data = d.data ++ ['/'] := by
    rw [String.data_append]
  have hsuffix : hasSlashSuffix (d ++ "/") = true := by
    unfold hasSlashSuffix
    rw [hdata]
    simp
  unfold trimSlashSuffix
  rw [if_pos hsuffix, hdata]
  simp

theorem trimSlashSuffix_of_no_slash (d : String) (h : hasSlashSuffix d = false) :
    trimSlashSuffix d = d := by
  unfold trimSlashSuffix
  simp [h]

/-- C15: for a directory path `d` that does not end in `/`, `RetrieveLatestSavepoint`
on `d` followed by `/` lists the directory `d`, as it does on `d`, and makes the same
calls with the same result. -/
theorem C15_trailing_slash_normalised (env : Env) (d : String)
    (hd : hasSlashSuffix d = false) :
    RetrieveLatestSavepoint env (d ++ "/") = RetrieveLatestSavepoint env d ∧
    (RetrieveLatestSavepoint env (d ++ "/")).1.head? = some (Call.readDir d) := by
  have h1 := trimSlashSuffix_append_slash d
  have h2 := trimSlashSuffix_of_no_slash d hd
  have hrun : ∀ x : String, trimSlashSuffix x = d →
      RetrieveLatestSavepoint env x =
        (match env.readDir d with
          | .error err => ([Call.readDir d], .error err)
          | .ok files =>
            (Call.readDir d :: (latestLoop env d files "" 0).1,
              (latestLoop env d files "" 0).2)) := by
    intro x hx
    have hn : (if hasSlashSuffix x then trimSlashSuffix x else x) = d := by
      rw [normalise_eq, hx]
    unfold RetrieveLatestSavepoint
    simp only [hn]
  rw [hrun _ h1, hrun _ h2]
  refine ⟨rfl, ?_⟩
  cases env.readDir d <;> rfl

/-- C15, witness: `/sp/` and `/sp` with the two savepoints. -/
theorem C15_trailing_slash_normalised_witness :
    RetrieveLatestSavepoint envTwoSavepoints ("/sp" ++ "/") =
      RetrieveLatestSavepoint envTwoSavepoints "/sp" ∧
    (RetrieveLatestSavepoint envTwoSavepoints ("/sp" ++ "/")).1.head?
      = some (Call.readDir "/sp") :=
  C15_trailing_slash_normalised envTwoSavepoints "/sp" (by decide)

/-- C16: with a non-empty job name, when the running-instance query fails with the
error `e`, `execute` returns `e` with no output and makes no other call. -/
theorem C16_query_failure_returned (env : Env) (u : UpdateJob) (e : GoError)
    (hname : u.jobName ≠ "")
    (hquery : env.retrieveRunningJobIds u.jobName = .error e) :
    UpdateJob.execute env u = ([Call.retrieveRunningJobIds u.jobName], (none, some e)) := by
  unfold UpdateJob.execute
  rw [if_neg (length_ne_zero_of_ne_empty _ hname)]
  simp only [hquery]

/-- C16, witness: the job manager cannot be reached. -/
theorem C16_query_failure_returned_witness :
    UpdateJob.execute envQueryFails (ordersJob "/sp") =
      ([Call.retrieveRunningJobIds "orders-job"],
        (none, some ⟨"job manager not reachable"⟩)) :=
  C16_query_failure_returned envQueryFails (ordersJob "/sp") ⟨"job manager not reachable"⟩
    (by decide) rfl

/-- C17: with a non-empty job name, no running instance and a non-empty savepoint
directory whose listing succeeds and is empty, `execute` lists the directory, hands
the deploy collaborator a request with no savepoint path and returns its result. -/
theorem C17_empty_directory_fresh_start (env : Env) (u : UpdateJob)
    (hname : u.jobName ≠ "")
    (hquery : env.retrieveRunningJobIds u.jobName = .ok [])
    (hdir : u.savepointDirectory ≠ "")
    (hlist : env.readDir (trimSlashSuffix u.savepointDirectory) = .ok []) :
    UpdateJob.execute env u =
      ([Call.retrieveRunningJobIds u.jobName,
          Call.readDir (trimSlashSuffix u.savepointDirectory), Call.deploy (deployOf u "")],
        env.deploy (deployOf u "")) ∧
    (deployOf u "").savepointPath = "" := by
  have hlatest : RetrieveLatestSavepoint env u.savepointDirectory =
      ([Call.readDir (trimSlashSuffix u.savepointDirectory)], .ok "") := by
    unfold RetrieveLatestSavepoint
    simp only [normalise_eq, hlist]
    rfl
  rw [execute_none env u _ "" hname hquery hdir hlatest]
  exact ⟨rfl, rfl⟩

/-- C17, witness: `orders-job` with no running instance and the empty directory
`/sp`. -/
theorem C17_empty_directory_fresh_start_witness :
    UpdateJob.execute envEmptyDir (ordersJob "/sp") =
      ([Call.retrieveRunningJobIds "orders-job", Call.readDir "/sp",
          Call.deploy (deployOf (ordersJob "/sp") "")],
        (some "deployed from []", none)) ∧
    (deployOf (ordersJob "/sp") "").savepointPath = "" :=
  C17_empty_directory_fresh_start envEmptyDir (ordersJob "/sp") (by decide) rfl (by decide) rfl

/-- When no entry is later than `newestTime`, the loop keeps `newestFile`. -/
theorem latestLoop_keep (env : Env) (dir : String) (files : List FileInfo)
    (newestFile : String) (newestTime : Int)
    (hle : ∀ g ∈ files, ∃ fi, env.stat (dir ++ "/" ++ g.name) = .ok fi ∧
      fi.modTime ≤ newestTime) :
    (latestLoop env dir files newestFile newestTime).2 = .ok newestFile := by
  induction files with
  | nil => rfl
  | cons f rest ih =>
    obtain ⟨fi, hfi, hmt⟩ := hle f (List.mem_cons_self _ _)
    simp only [latestLoop, hfi, gt_iff_lt, if_neg (not_lt.2 hmt)]
    exact ih (fun g hg => hle g (List.mem_cons_of_mem _ hg))

/-- A loop that ends without error has read the metadata of every entry, and either
kept `newestFile`, no entry being later than `newestTime`, or returns the path of an
entry whose modification time, as read, is later than `newestTime` and at least that
of every entry. -/
theorem latestLoop_ok (env : Env) (dir : String) (files : List FileInfo)
    (newestFile : String) (newestTime : Int) (res : String)
    (h : (latestLoop env dir files newestFile newestTime).2 = .ok res) :
    (res = newestFile ∧
      ∀ g ∈ files, ∃ fi, env.stat (dir ++ "/" ++ g.name) = .ok fi ∧
        fi.modTime ≤ newestTime) ∨
      ∃ g ∈ files, res = dir ++ "/" ++ g.name ∧
        ∃ fi, env.stat (dir ++ "/" ++ g.name) = .ok fi ∧ newestTime < fi.modTime ∧
          ∀ h ∈ files, ∃ fh, env.stat (dir ++ "/" ++ h.name) = .ok fh ∧
            fh.modTime ≤ fi.modTime := by
  induction files generalizing newestFile newestTime with
  | nil =>
    left
    simp only [latestLoop, Except.ok.injEq] at h
    exact ⟨h.symm, by simp⟩
  | cons f rest ih =>
    cases hst : env.stat (dir ++ "/" ++ f.name) with
    | error err => simp [latestLoop, hst] at h
    | ok fi =>
      simp only [latestLoop, hst] at h
      by_cases hgt : fi.modTime > newestTime
      · simp only [hgt, if_true] at h
        right
        rcases ih _ _ h with ⟨hkeep, hle⟩ | ⟨g, hg, hpath, gi, hgi, hlt, hmax⟩
        · refine ⟨f, List.mem_cons_self _ _, hkeep, fi, hst, hgt, ?_⟩
          intro x hx
          rcases List.mem_cons.1 hx with rfl | hx
          · exact ⟨fi, hst, le_refl _⟩
          · exact hle x hx
        · refine ⟨g, List.mem_cons_of_mem _ hg, hpath, gi, hgi, lt_trans hgt hlt, ?_⟩
          intro x hx
          rcases List.mem_cons.1 hx with rfl | hx
          · exact ⟨fi, hst, le_of_lt hlt⟩
          · exact hmax x hx
      · simp only [hgt, if_false] at h
        rcases ih _ _ h with ⟨hkeep, hle⟩ | ⟨g, hg, hpath, gi, hgi, hlt, hmax⟩
        · left
          refine ⟨hkeep, ?_⟩
          intro x hx
          rcases List.mem_cons.1 hx with rfl | hx
          · exact ⟨fi, hst, not_lt.1 hgt⟩
          · exact hle x hx
        · right
          refine ⟨g, List.mem_cons_of_mem _ hg, hpath, gi, hgi, hlt, ?_⟩
          intro x hx
          rcases List.mem_cons.1 hx with rfl | hx
          · exact ⟨fi, hst, le_trans (not_lt.1 hgt) (le_of_lt hlt)⟩
          · exact hmax x hx

/-- C18: a non-empty result of `RetrieveLatestSavepoint` is the path of a listed
entry whose modification time is after the epoch and at least that of every listed
entry; and a directory all of whose entries were modified at or before the epoch gives
the empty string and no error, as an empty directory does. -/
theorem C18_epoch_or_earlier_never_returned (env : Env) (dir : String) :
    (∀ res, (RetrieveLatestSavepoint env dir).2 = .ok res → res ≠ "" →
      ∃ files, env.readDir (trimSlashSuffix dir) = .ok files ∧
        ∃ g ∈ files, res = trimSlashSuffix dir ++ "/" ++ g.name ∧
          ∃ fi, env.stat res = .ok fi ∧ 0 < fi.modTime ∧
            ∀ h ∈ files, ∃ fh, env.stat (trimSlashSuffix dir ++ "/" ++ h.name) = .ok fh ∧
              fh.modTime ≤ fi.modTime) ∧
    (∀ files, env.readDir (trimSlashSuffix dir) = .ok files →
      (∀ g ∈ files, ∃ fi, env.stat (trimSlashSuffix dir ++ "/" ++ g.name) = .ok fi ∧
        fi.modTime ≤ 0) →
      (RetrieveLatestSavepoint env dir).2 = .ok "") := by
  constructor
  · intro res hres hne
    cases hrd : env.readDir (trimSlashSuffix dir) with
    | error err =>
      simp [RetrieveLatestSavepoint, normalise_eq, hrd] at hres
    | ok files =>
      simp only [RetrieveLatestSavepoint, normalise_eq, hrd] at hres
      rcases latestLoop_ok env _ files "" 0 res hres with
        ⟨hkeep, -⟩ | ⟨g, hg, hpath, fi, hfi, hlt, hmax⟩
      · exact absurd hkeep hne
      · exact ⟨files, rfl, g, hg, hpath, fi, by rw [hpath]; exact hfi, hlt, hmax⟩
  · intro files hrd hle
    simp only [RetrieveLatestSavepoint, normalise_eq, hrd]
    exact latestLoop_keep env _ files "" 0 hle

/-- C18, witness: the directory whose only entry was modified at second 0 gives the
empty string, and the non-empty result `/sp/sp-2` names an entry modified after the
epoch. -/
theorem C18_epoch_or_earlier_never_returned_witness :
    (RetrieveLatestSavepoint envEpoch "/sp").2 = .ok "" ∧
    (∃ files, envTwoSavepoints.readDir "/sp" = .ok files ∧
      ∃ g ∈ files, "/sp/sp-2" = "/sp" ++ "/" ++ g.name ∧
        ∃ fi, envTwoSavepoints.stat "/sp/sp-2" = .ok fi ∧ 0 < fi.modTime ∧
          ∀ h ∈ files, ∃ fh, envTwoSavepoints.stat ("/sp" ++ "/" ++ h.name) = .ok fh ∧
            fh.modTime ≤ fi.modTime) :=
  ⟨(C18_epoch_or_earlier_never_returned envEpoch "/sp").2 [⟨"a", 0⟩] rfl
      (by
        intro g _
        exact ⟨⟨"a", 0⟩, rfl, by decide⟩),
    (C18_epoch_or_earlier_never_returned envTwoSavepoints "/sp").1 "/sp/sp-2" rfl
      (by decide)⟩

/-- The ways `CreateSavepoint` fails: the trigger fails, the path cannot be extracted
from its output, or the existence check fails; the error is the one of that step. -/
theorem CreateSavepoint_error (env : Env) (jobId : String) (e : GoError)
    (h : (CreateSavepoint env jobId).2 = .error e) :
    env.savepoint jobId = .error e ∨
      ∃ out, env.savepoint jobId = .ok out ∧
        (ExtractSavepointPath out = .error e ∨
          ∃ path, ExtractSavepointPath out = .ok path ∧ env.fsExists path = .error e) := by
  unfold CreateSavepoint at h
  split at h
  · rename_i err herr
    simp only [Except.error.injEq] at h
    subst h
    exact Or.inl herr
  · rename_i out hout
    right
    refine ⟨out, hout, ?_⟩
    split at h
    · rename_i err herr
      simp only [Except.error.injEq] at h
      subst h
      exact Or.inl herr
    · rename_i path hpath
      right
      refine ⟨path, hpath, ?_⟩
      split at h
      · rename_i err herr
        simp only [Except.error.injEq] at h
        subst h
        exact herr
      · simp at h

/-- C19: on the single-instance path, each way savepoint creation can fail stops
the update with that error and no output, before any cancel request or deploy call:
a trigger error `e` is returned after the query and the trigger; an output with no
match gives the could-not-extract error and an output with two or more matches the
multiple-matches error, after the same two calls; with exactly one match, an error `e`
of the existence check is returned after the query, the trigger and that check. -/
theorem C19_failed_savepoint_stops_update (env : Env) (u : UpdateJob) (jobId : String)
    (hname : u.jobName ≠ "")
    (hquery : env.retrieveRunningJobIds u.jobName = .ok [jobId]) :
    (∀ e, env.savepoint jobId = .error e →
      UpdateJob.execute env u =
        ([Call.retrieveRunningJobIds u.jobName, Call.savepoint jobId], (none, some e))) ∧
    (∀ out, env.savepoint jobId = .ok out → findAllSubmatch out = [] →
      UpdateJob.execute env u =
        ([Call.retrieveRunningJobIds u.jobName, Call.savepoint jobId],
          (none, some (errorsNew "could not extract savepoint path from Flink's output")))) ∧
    (∀ out, env.savepoint jobId = .ok out → 2 ≤ (findAllSubmatch out).length →
      UpdateJob.execute env u =
        ([Call.retrieveRunningJobIds u.jobName, Call.savepoint jobId],
          (none, some (errorsNew "multiple matches for savepoint found")))) ∧
    (∀ out path e, env.savepoint jobId = .ok out → findAllSubmatch out = [path] →
      env.fsExists path = .error e →
      UpdateJob.execute env u =
        ([Call.retrieveRunningJobIds u.jobName, Call.savepoint jobId, Call.fsExists path],
          (none, some e))) := by
  have hstart : UpdateJob.execute env u =
      (match CreateSavepoint env jobId with
        | (calls, .error err) =>
          (Call.retrieveRunningJobIds u.jobName :: calls, (none, some err))
        | (calls, .ok savepoint) =>
          (Call.retrieveRunningJobIds u.jobName :: calls ++
              [Call.cancelJob jobId, Call.deploy (deployOf u savepoint)],
            env.deploy (deployOf u savepoint))) := by
    unfold UpdateJob.execute
    rw [if_neg (length_ne_zero_of_ne_empty _ hname)]
    simp only [hquery]
    rfl
  refine ⟨?_, ?_, ?_, ?_⟩
  · intro e he
    rw [hstart]
    simp only [CreateSavepoint, he]
  · intro out hout hnone
    rw [hstart]
    simp only [CreateSavepoint, hout, ExtractSavepointPath, hnone]
  · intro out hout hmany
    rw [hstart]
    rcases hm : findAllSubmatch out with _ | ⟨m, _ | ⟨m2, ms⟩⟩
    · rw [hm] at hmany; simp at hmany
    · rw [hm] at hmany; simp at hmany
    · simp only [CreateSavepoint, hout, ExtractSavepointPath, hm]
  · intro out path e hout hone he
    rw [hstart]
    simp only [CreateSavepoint, hout, ExtractSavepointPath, hone, he]

/-- C19, witness: a failing trigger, a trigger output with no savepoint path, one with
two savepoint paths, and a failing existence check; each stops the update of
`orders-job` before the cancel request. -/
theorem C19_failed_savepoint_stops_update_witness :
    UpdateJob.execute envTriggerFails (ordersJob "/sp") =
      ([Call.retrieveRunningJobIds "orders-job", Call.savepoint "jid-7"],
        (none, some ⟨"savepoint trigger timed out"⟩)) ∧
    UpdateJob.execute envNoMarker (ordersJob "/sp") =
      ([Call.retrieveRunningJobIds "orders-job", Call.savepoint "jid-7"],
        (none, some ⟨"could not extract savepoint path from Flink's output"⟩)) ∧
    UpdateJob.execute envTwoMarkers (ordersJob "/sp") =
      ([Call.retrieveRunningJobIds "orders-job", Call.savepoint "jid-7"],
        (none, some ⟨"multiple matches for savepoint found"⟩)) ∧
    UpdateJob.execute envExistsFails (ordersJob "/sp") =
      ([Call.retrieveRunningJobIds "orders-job", Call.savepoint "jid-7",
          Call.fsExists "/sp/orders-1"],
        (none, some ⟨"permission denied"⟩)) :=
  ⟨(C19_failed_savepoint_stops_update envTriggerFails (ordersJob "/sp") "jid-7"
      (by decide) rfl).1 ⟨"savepoint trigger timed out"⟩ rfl,
    (C19_failed_savepoint_stops_update envNoMarker (ordersJob "/sp") "jid-7"
      (by decide) rfl).2.1 _ rfl (by decide),
    (C19_failed_savepoint_stops_update envTwoMarkers (ordersJob "/sp") "jid-7"
      (by decide) rfl).2.2.1 _ rfl (by decide),
    (C19_failed_savepoint_stops_update envExistsFails (ordersJob "/sp") "jid-7"
      (by decide) rfl).2.2.2 _ "/sp/orders-1" ⟨"permission denied"⟩ rfl (by decide) rfl⟩

/-- C20: when the instance query answers with one or more instance ids, replacing the
savepoint directory of the `UpdateJob` by any other changes neither the calls of
`execute`, the deployment request among them, nor its result, and no call lists a
directory or reads a file's metadata. -/
theorem C20_savepoint_directory_unused (env : Env) (u : UpdateJob) (dir2 : String)
    (jobId : String) (rest : List String)
    (hquery : env.retrieveRunningJobIds u.jobName = .ok (jobId :: rest)) :
    UpdateJob.execute env { u with savepointDirectory := dir2 } = UpdateJob.execute env u ∧
    (∀ c ∈ (UpdateJob.execute env u).1,
      (∀ d, c ≠ Call.readDir d) ∧ (∀ path, c ≠ Call.stat path)) := by
  constructor
  · unfold UpdateJob.execute
    simp only [hquery]
    cases rest <;> rfl
  · intro c hc
    unfold UpdateJob.execute at hc
    split at hc
    · simp at hc
    · simp only [hquery] at hc
      cases rest with
      | nil =>
        simp only at hc
        have hcalls := CreateSavepoint_calls env jobId
        split at hc
        · rename_i calls err heq
          rw [heq] at hcalls
          rcases List.mem_cons.1 hc with h | h
          · subst h; simp
          · rcases hcalls c h with h2 | ⟨p, h2⟩ <;> subst h2 <;> simp
        · rename_i calls sp heq
          rw [heq] at hcalls
          simp only [List.cons_append, List.mem_cons, List.mem_append, List.not_mem_nil,
            or_false] at hc
          rcases hc with h | h | h | h
          · subst h; simp
          · rcases hcalls c h with h2 | ⟨p, h2⟩ <;> subst h2 <;> simp
          · subst h; simp
          · subst h; simp
      | cons b rest2 =>
        simp only [List.mem_singleton] at hc
        subst hc
        simp

/-- C20, witness: the scenario of the specification run with the savepoint directory
`/sp` and with none. -/
theorem C20_savepoint_directory_unused_witness :
    UpdateJob.execute envOrders { ordersJob "" with savepointDirectory := "/sp" }
      = UpdateJob.execute envOrders (ordersJob "") ∧
    (∀ c ∈ (UpdateJob.execute envOrders (ordersJob "")).1,
      (∀ d, c ≠ Call.readDir d) ∧ (∀ path, c ≠ Call.stat path)) :=
  C20_savepoint_directory_unused envOrders (ordersJob "") "/sp" "jid-7" [] rfl

end FlinkDeployer
